import Mathlib

/-
Verification of the security layer and retry orchestrator of the Home365
property-management agent (src/agent/security.py, src/agent/graph.py).

Python strings are embedded as `List Char`; all inputs handled by the
program are ASCII, so Python's `str.lower`/`str.upper` are modelled by
ASCII case maps.  Regular-expression searches of the source (all of the
form used there: word-bounded literals, `\s*`/`\s+` gaps, `.*` gaps,
character classes) are embedded as explicit scanners with Python's
leftmost-match and backtracking semantics.
-/

set_option maxRecDepth 10000

/-- ASCII lower-casing, as Python `str.lower` acts on ASCII text. -/
def lowC (c : Char) : Char :=
  match c with
  | 'A' => 'a' | 'B' => 'b' | 'C' => 'c' | 'D' => 'd' | 'E' => 'e'
  | 'F' => 'f' | 'G' => 'g' | 'H' => 'h' | 'I' => 'i' | 'J' => 'j'
  | 'K' => 'k' | 'L' => 'l' | 'M' => 'm' | 'N' => 'n' | 'O' => 'o'
  | 'P' => 'p' | 'Q' => 'q' | 'R' => 'r' | 'S' => 's' | 'T' => 't'
  | 'U' => 'u' | 'V' => 'v' | 'W' => 'w' | 'X' => 'x' | 'Y' => 'y'
  | 'Z' => 'z' | c => c

/-- ASCII upper-casing, as Python `str.upper` acts on ASCII text. -/
def upC (c : Char) : Char :=
  match c with
  | 'a' => 'A' | 'b' => 'B' | 'c' => 'C' | 'd' => 'D' | 'e' => 'E'
  | 'f' => 'F' | 'g' => 'G' | 'h' => 'H' | 'i' => 'I' | 'j' => 'J'
  | 'k' => 'K' | 'l' => 'L' | 'm' => 'M' | 'n' => 'N' | 'o' => 'O'
  | 'p' => 'P' | 'q' => 'Q' | 'r' => 'R' | 's' => 'S' | 't' => 'T'
  | 'u' => 'U' | 'v' => 'V' | 'w' => 'W' | 'x' => 'X' | 'y' => 'Y'
  | 'z' => 'Z' | c => c

def lowS (s : List Char) : List Char := s.map lowC

def upS (s : List Char) : List Char := s.map upC

/-- Python regex `\w` over ASCII: letters, digits and underscore. -/
def isWordChar (c : Char) : Bool :=
  (65 ≤ c.toNat && c.toNat ≤ 90) || (97 ≤ c.toNat && c.toNat ≤ 122) ||
  (48 ≤ c.toNat && c.toNat ≤ 57) || c = '_'

/-- Python regex `\s` / `str.strip` whitespace set. -/
def isPySpace (c : Char) : Bool :=
  c = ' ' || c = '\t' || c = '\n' || c = '\r' || c = '\x0b' || c = '\x0c'

/-- Word boundary `\b` on the left of a match: no previous character, or a
previous non-word character. -/
def bdryB : Option Char → Bool
  | none => true
  | some c => !isWordChar c

/-- Word boundary `\b` on the right of a match: end of input, or a
following non-word character. -/
def bdryA : List Char → Bool
  | [] => true
  | c :: _ => !isWordChar c

/-- Exact literal prefix match, returning the remainder. -/
def stripPre : List Char → List Char → Option (List Char)
  | [], s => some s
  | _, [] => none
  | a :: p, b :: s => if a = b then stripPre p s else none

/-- Case-insensitive literal prefix match (regex `re.IGNORECASE`),
returning the remainder. -/
def stripPreCI : List Char → List Char → Option (List Char)
  | [], s => some s
  | _, [] => none
  | a :: p, b :: s => if lowC a = lowC b then stripPreCI p s else none

/-- Scanner for `re.search(r'\b<w>\b', s, re.IGNORECASE)`: returns the
start index of the leftmost word-bounded case-insensitive occurrence of
the literal `w`.  `prev` is the character before the current position,
`i` the current absolute index. -/
def findWordCIAux (w : List Char) : Option Char → List Char → Nat → Option Nat
  | _, [], _ => none
  | prev, c :: t, i =>
    if bdryB prev &&
        (match stripPreCI w (c :: t) with
         | some r => bdryA r
         | none => false) then
      some i
    else
      findWordCIAux w (some c) t (i + 1)

def findWordCI (w s : List Char) : Option Nat := findWordCIAux w none s 0

def hasWordCI (w s : List Char) : Bool := (findWordCI w s).isSome

/-- Python substring test `needle in hay`. -/
def containsSub : List Char → List Char → Bool
  | n, [] => n.isEmpty
  | n, c :: t => (stripPre n (c :: t)).isSome || containsSub n t

/-- Python `str.rstrip` with an explicit character predicate. -/
def pyStripR (p : Char → Bool) (s : List Char) : List Char :=
  (s.reverse.dropWhile p).reverse

/-- Python `str.lstrip` with an explicit character predicate. -/
def pyStripL (p : Char → Bool) (s : List Char) : List Char :=
  s.dropWhile p

/-- Python `str.strip()` (both ends, whitespace). -/
def pyStrip (s : List Char) : List Char :=
  pyStripR isPySpace (pyStripL isPySpace s)

def digitChar (d : Nat) : Char :=
  match d with
  | 0 => '0' | 1 => '1' | 2 => '2' | 3 => '3' | 4 => '4'
  | 5 => '5' | 6 => '6' | 7 => '7' | 8 => '8' | _ => '9'

/-- Decimal digits of a natural number, most significant first
(accumulator form; the first argument is recursion fuel, always at
least the number of digits when called through `natStr`). -/
def natStrAux : Nat → Nat → List Char → List Char
  | 0, n, acc => digitChar n :: acc
  | fuel + 1, n, acc =>
    if n < 10 then digitChar n :: acc
    else natStrAux fuel (n / 10) (digitChar (n % 10) :: acc)

def natStr (n : Nat) : List Char := natStrAux n n []

/-- Python `str(i)` for an `int`. -/
def intStr (i : Int) : List Char :=
  if i < 0 then '-' :: natStr i.natAbs else natStr i.natAbs

/-- Python `f-string` rendering of an `Optional[int]` field. -/
def pyStrOptInt : Option Int → List Char
  | none => "None".toList
  | some i => intStr i

def apoc : Char := Char.ofNat 39

/-! ## Data model (src/agent/state.py) -/

/-- Model of `UserContext` (pydantic model): per-request identity for RBAC. -/
structure UserContext where
  user_id : Int
  role : List Char
  owner_id : Option Int
deriving DecidableEq

/-! ## SecurityValidator (src/agent/security.py) -/

/-- The ten denylisted keywords of `SecurityValidator.DML_PATTERNS`
(each searched as `\b<word>\b`, case-insensitively). -/
def DML_WORDS : List (List Char) :=
  ["INSERT".toList, "UPDATE".toList, "DELETE".toList, "DROP".toList,
   "TRUNCATE".toList, "ALTER".toList, "CREATE".toList, "REPLACE".toList,
   "EXEC".toList, "EXECUTE".toList]

/-- Scanner for the injection pattern `;\s*DROP`. -/
def hasSemiDrop : List Char → Bool
  | [] => false
  | c :: t =>
    (c = ';' && (stripPreCI "DROP".toList (t.dropWhile isPySpace)).isSome) ||
    hasSemiDrop t

/-- Scan for `DROP` occurring before any newline (regex `.*DROP` continuation). -/
def dropBeforeNl : List Char → Bool
  | [] => false
  | c :: t =>
    if c = '\n' then false
    else (stripPreCI "DROP".toList (c :: t)).isSome || dropBeforeNl t

/-- Scanner for the injection pattern `--.*DROP`. -/
def hasDashDrop : List Char → Bool
  | [] => false
  | c :: t =>
    (match stripPreCI "--".toList (c :: t) with
     | some r => dropBeforeNl r
     | none => false) ||
    hasDashDrop t

/-- Scan for `*/` occurring before any newline (regex `.*\*/` continuation). -/
def starCloseBeforeNl : List Char → Bool
  | [] => false
  | c :: t =>
    if c = '\n' then false
    else (stripPreCI "*/".toList (c :: t)).isSome || starCloseBeforeNl t

/-- Scan for `DROP` then `.*\*/`, scanning before any newline. -/
def dropThenClose : List Char → Bool
  | [] => false
  | c :: t =>
    if c = '\n' then false
    else
      (match stripPreCI "DROP".toList (c :: t) with
       | some r => starCloseBeforeNl r
       | none => false) ||
      dropThenClose t

/-- Scanner for the injection pattern `/\*.*DROP.*\*/`. -/
def hasBlockDrop : List Char → Bool
  | [] => false
  | c :: t =>
    (match stripPreCI "/*".toList (c :: t) with
     | some r => dropThenClose r
     | none => false) ||
    hasBlockDrop t

/-- Scan for `FROM` occurring before any newline (regex `.*FROM` continuation). -/
def fromBeforeNl : List Char → Bool
  | [] => false
  | c :: t =>
    if c = '\n' then false
    else (stripPreCI "FROM".toList (c :: t)).isSome || fromBeforeNl t

/-- Scan for `SELECT` then `.*FROM`, scanning before any newline. -/
def selThenFrom : List Char → Bool
  | [] => false
  | c :: t =>
    if c = '\n' then false
    else
      (match stripPreCI "SELECT".toList (c :: t) with
       | some r => fromBeforeNl r
       | none => false) ||
      selThenFrom t

/-- Scanner for the injection pattern `UNION.*SELECT.*FROM`. -/
def hasUnionSelFrom : List Char → Bool
  | [] => false
  | c :: t =>
    (match stripPreCI "UNION".toList (c :: t) with
     | some r => selThenFrom r
     | none => false) ||
    hasUnionSelFrom t

/-- Model of `SecurityValidator.validate_query`: denylist scan over the
upper-cased SQL, then the four injection-shape scans.  Returns
`(is_valid, error_message)`. -/
def validate_query (sql : List Char) : Bool × List Char :=
  match DML_WORDS.find? (fun w => hasWordCI w (upS sql)) with
  | some w =>
    (false, "Forbidden SQL operation detected: \\b".toList ++ w ++ "\\b".toList)
  | none =>
    if hasSemiDrop (upS sql) || hasDashDrop (upS sql) ||
        hasBlockDrop (upS sql) || hasUnionSelFrom (upS sql) then
      (false, "Potential SQL injection detected".toList)
    else
      (true, [])

/-- Generic scanner: leftmost position with a left word boundary where the
literal `lit` matches exactly and the continuation predicate accepts the
remainder (used for the viewer/owner regex patterns, which are searched
case-sensitively over the lower-cased query). -/
def scanPat (lit : List Char) (tail : List Char → Bool) :
    Option Char → List Char → Bool
  | _, [] => false
  | prev, c :: t =>
    (bdryB prev &&
      (match stripPre lit (c :: t) with
       | some r => tail r
       | none => false)) ||
    scanPat lit tail (some c) t

def hasPat (lit : List Char) (tail : List Char → Bool) (s : List Char) : Bool :=
  scanPat lit tail none s

/-- Scanner for `\b<w>\b` searched case-sensitively. -/
def hasWordCS (w s : List Char) : Bool := hasPat w bdryA s

/-- Continuation scanner for the gap `.*\b<w2>\b` of the pair patterns
(`.` does not match a newline). -/
def pairScanAfter (w2 : List Char) : Option Char → List Char → Bool
  | _, [] => false
  | prev, c :: t =>
    (bdryB prev &&
      (match stripPre w2 (c :: t) with
       | some r => bdryA r
       | none => false)) ||
    (!(c = '\n') && pairScanAfter w2 (some c) t)

/-- Scanner for `\b<w1>\b.*\b<w2>\b`. -/
def hasPairPat (w1 w2 s : List Char) : Bool :=
  hasPat w1 (fun r => bdryA r && pairScanAfter w2 w1.getLast? r) s

/-- Python `\s+` consumption: at least one whitespace character, then a
maximal whitespace run. -/
def skipWs1 (s : List Char) : Option (List Char) :=
  match s with
  | c :: t => if isPySpace c then some (t.dropWhile isPySpace) else none
  | [] => none

def digit16 (d : Char) : Bool :=
  d = '1' || d = '2' || d = '3' || d = '4' || d = '5' || d = '6'

/-- Continuation for `\s*[1-6]\b`. -/
def wsDigitBdry (r : List Char) : Bool :=
  match r.dropWhile isPySpace with
  | d :: r2 => digit16 d && bdryA r2
  | [] => false

/-- Continuation for `[1-6]\b`. -/
def digitBdry (r : List Char) : Bool :=
  match r with
  | d :: r2 => digit16 d && bdryA r2
  | [] => false

/-- Continuation for `\s+[1-6]\b`. -/
def ws1DigitBdry (r : List Char) : Bool :=
  match skipWs1 r with
  | some r1 => digitBdry r1
  | none => false

/-- Continuation for `\s+llc` (no trailing boundary in the source
patterns `\bfor\s+llc` etc.). -/
def ws1Llc (r : List Char) : Bool :=
  match skipWs1 r with
  | some r1 => (stripPre "llc".toList r1).isSome
  | none => false

/-- The detail-revealing viewer patterns that are single word-bounded
literals. -/
def sensitiveWords : List (List Char) :=
  ["address".toList, "tenant".toList, "name".toList, "contact".toList,
   "phone".toList, "email".toList, "unit number".toList]

/-- Viewer sensitive-pattern hit: seven word literals plus the two
pair patterns `\blist\b.*\bproperties\b` and `\bshow\b.*\bproperties\b`. -/
def sensitiveHit (ql : List Char) : Bool :=
  sensitiveWords.any (fun w => hasWordCS w ql) ||
  hasPairPat "list".toList "properties".toList ql ||
  hasPairPat "show".toList "properties".toList ql

/-- Viewer owner-specific patterns (`\bllc\s*[1-6]\b`, `\bllc[1-6]\b`,
`\bowner\s+[1-6]\b`, `\bfor\s+llc`, `\bof\s+llc`, `\bdoes\s+llc`,
`\bdo\s+llc`). -/
def viewerOwnerHit (ql : List Char) : Bool :=
  hasPat "llc".toList wsDigitBdry ql ||
  hasPat "llc".toList digitBdry ql ||
  hasPat "owner".toList ws1DigitBdry ql ||
  hasPat "for".toList ws1Llc ql ||
  hasPat "of".toList ws1Llc ql ||
  hasPat "does".toList ws1Llc ql ||
  hasPat "do".toList ws1Llc ql

/-- Search hits of `SecurityValidator.OWNER_NAMES`
(`\bLLC1\b` .. `\bLLC5\b`, `re.IGNORECASE`, over the raw query). -/
def ownerNamesHit (q : List Char) : Bool :=
  ["LLC1".toList, "LLC2".toList, "LLC3".toList, "LLC4".toList,
   "LLC5".toList].any (fun w => hasWordCI w q)

/-- Forbidden system-wide terms for the owner role (plain substring
tests over the lower-cased query). -/
def forbiddenTerms : List (List Char) :=
  ["all properties".toList, "total properties".toList, "entire".toList,
   "every property".toList, "admin".toList, "all owners".toList,
   "everyone".toList]

def forbiddenHit (ql : List Char) : Bool :=
  forbiddenTerms.any (fun t => containsSub t ql)

def viewerSensitiveMsg : List Char :=
  ("Access denied: Viewers can only access aggregated data (counts, " ++
   "averages, totals). Detailed property information is restricted to " ++
   "admin users.").toList

def viewerOwnerMsg : List Char :=
  ("Access denied: Viewers cannot query data for specific owners. " ++
   "You can only access aggregated statistics across all properties.").toList

def ownerOtherMsg (oid : Option Int) : List Char :=
  "Access denied: As an owner, you can only view your own properties (LLC".toList ++
  pyStrOptInt oid ++
  "). You cannot query other owners".toList ++ [apoc] ++ " data.".toList

def ownerForbiddenMsg : List Char :=
  "Access denied: As an owner, you can only view your own properties. Try asking ".toList ++
  [apoc] ++ "How many properties do I have?".toList ++ [apoc] ++ " instead.".toList

/-- Model of `SecurityValidator.validate_query_intent`: role-scope
authorization over the raw question text.  The source loops over
patterns and returns on the first hit; every hit inside one loop yields
the same message, so each loop is collapsed into its disjunction. -/
def validate_query_intent (q : List Char) (ctx : UserContext) : Bool × List Char :=
  let ql := lowS q
  if lowS ctx.role = "viewer".toList && sensitiveHit ql then
    (false, viewerSensitiveMsg)
  else if lowS ctx.role = "viewer".toList && viewerOwnerHit ql then
    (false, viewerOwnerMsg)
  else if !(lowS ctx.role = "owner".toList) then
    (true, [])
  else if ownerNamesHit q &&
      !containsSub (lowS ("LLC".toList ++ pyStrOptInt ctx.owner_id)) ql then
    (false, ownerOtherMsg ctx.owner_id)
  else if forbiddenHit ql then
    (false, ownerForbiddenMsg)
  else
    (true, [])

/-- The conversational patterns of `SecurityValidator.is_data_query`
(each searched as a word-bounded literal over the lower-cased, stripped
query). -/
def convPhrases : List (List Char) :=
  ["hello".toList, "hi".toList, "hey".toList, "greetings".toList,
   "how are you".toList,
   "how".toList ++ [apoc] ++ "s it going".toList,
   "what can you do".toList, "what are you".toList, "who are you".toList,
   "help me".toList, "explain".toList, "tell me about yourself".toList,
   "good morning".toList, "good afternoon".toList, "good evening".toList,
   "thank you".toList, "thanks".toList, "bye".toList, "goodbye".toList]

/-- The canned capability response returned for conversational queries. -/
def cannedCapabilityResponse : List Char :=
  "I".toList ++ [apoc] ++
  ("m a property management AI assistant specialized in analyzing your real estate data.\n\n" ++
   "I can help you with:\n" ++
   "• Property counts and statistics\n" ++
   "• Rent analysis and averages\n" ++
   "• Profitability calculations\n" ++
   "• Unit details and occupancy\n" ++
   "• Property searches and filters\n\n" ++
   "Try asking:\n" ++
   "- \"How many properties do I have?\"\n" ++
   "- \"What is my most profitable property?\"\n" ++
   "- \"What").toList ++ [apoc] ++
  ("s the average rent I received?\"\n" ++
   "- \"Show me properties in Arizona\"\n\n" ++
   "What would you like to know about your properties?").toList

/-- Model of `SecurityValidator.is_data_query`: conversational queries
get the canned response, data queries pass through. -/
def is_data_query (q : List Char) : Bool × List Char :=
  let ql := pyStrip (lowS q)
  if convPhrases.any (fun p => hasWordCS p ql) then
    (false, cannedCapabilityResponse)
  else
    (true, [])

/-! ## RbacRewriter (SecurityValidator.apply_rbac) -/

/-- The initial strip of `apply_rbac`:
`sql.rstrip().rstrip(';').rstrip()`. -/
def pyStripSqlEnd (s : List Char) : List Char :=
  pyStripR isPySpace (pyStripR (fun c => c = ';') (pyStripR isPySpace s))

/-- Test `'FROM PROPERTIES' in sql_upper or 'JOIN PROPERTIES' in
sql_upper`. -/
def referencesProperties (s : List Char) : Bool :=
  containsSub "FROM PROPERTIES".toList (upS s) ||
  containsSub "JOIN PROPERTIES".toList (upS s)

/-- Maximal `\w+` run and its remainder. -/
def takeWordRun (s : List Char) : List Char × List Char :=
  (s.takeWhile isWordChar, s.dropWhile isWordChar)

/-- Continuation of the alias regex after `PROPERTIES`:
`\s+(?:AS\s+)?(\w+)`, with the backtracking of the optional `AS\s+`
group.  Returns the captured alias and the remainder after it. -/
def aliasTail (s : List Char) : Option (List Char × List Char) :=
  match skipWs1 s with
  | none => none
  | some s1 =>
    let direct := takeWordRun s1
    let fallback := if direct.1.isEmpty then none else some direct
    match stripPreCI "AS".toList s1 with
    | some s2 =>
      match skipWs1 s2 with
      | some s3 =>
        let w := takeWordRun s3
        if w.1.isEmpty then fallback else some w
      | none => fallback
    | none => fallback

/-- Attempt of the alias regex
`\b(?:FROM|JOIN)\s+PROPERTIES\s+(?:AS\s+)?(\w+)` (with `re.IGNORECASE`)
at the current position. -/
def aliasAt (prev : Option Char) (s : List Char) : Option (List Char × List Char) :=
  if bdryB prev then
    match
      (match stripPreCI "FROM".toList s with
       | some r => some r
       | none => stripPreCI "JOIN".toList s) with
    | some s1 =>
      match skipWs1 s1 with
      | some s2 =>
        match stripPreCI "PROPERTIES".toList s2 with
        | some s3 => aliasTail s3
        | none => none
      | none => none
    | none => none
  else none

/-- Leftmost match of the alias regex. -/
def findAliasAux : Option Char → List Char → Option (List Char × List Char)
  | _, [] => none
  | prev, c :: t =>
    match aliasAt prev (c :: t) with
    | some x => some x
    | none => findAliasAux (some c) t

/-- Table reference used in the owner predicate: the detected alias, or
the bare table name `Properties`. -/
def tableRef (s : List Char) : List Char :=
  match findAliasAux none s with
  | some (w, _) => w
  | none => "Properties".toList

/-- The owner predicate `f"{table_ref}.owner_id = {owner_id}"`. -/
def ownerCond (ref : List Char) (k : Int) : List Char :=
  ref ++ ".owner_id = ".toList ++ intStr k

/-- The terminal-clause keywords scanned by `apply_rbac` when no `WHERE`
exists. -/
def termWords : List (List Char) :=
  ["GROUP BY".toList, "ORDER BY".toList, "LIMIT".toList, "OFFSET".toList]

/-- One step of the terminal-clause scan: keep the smaller first-match
start. -/
def termFoldStep (s : List Char) (acc : Nat) (w : List Char) : Nat :=
  match findWordCI w s with
  | some i => if i < acc then i else acc
  | none => acc

/-- Insert position for a new `WHERE` clause: minimum first-match start
of the terminal-clause patterns, defaulting to the end of the string. -/
def terminalInsertPos (s : List Char) : Nat :=
  termWords.foldl (termFoldStep s) s.length

/-- Model of `SecurityValidator.apply_rbac`: inject the owner predicate
into a statement referencing the Properties table. -/
def apply_rbac (sql : List Char) (ctx : UserContext) : List Char :=
  if lowS ctx.role = "owner".toList then
    match ctx.owner_id with
    | none => sql
    | some k =>
      let s := pyStripSqlEnd sql
      if referencesProperties s then
        let cond := ownerCond (tableRef s) k
        match findWordCI "WHERE".toList s with
        | some i =>
          s.take (i + 5) ++ (' ' :: (cond ++ " AND ".toList)) ++ s.drop (i + 5)
        | none =>
          let ip := terminalInsertPos s
          pyStripR isPySpace (s.take ip) ++ " WHERE ".toList ++ cond ++
            (' ' :: s.drop ip)
      else s
  else sql

/-! ## ErrorSanitizer (SecurityValidator.sanitize_error) -/

/-- Greatest index `j ≥ 1` of a `/` inside the maximal non-space run,
implementing the greedy body of `/[^\s]+/`. -/
def lastSlashIdx (run : List Char) : Option Nat :=
  match run.reverse.findIdx? (fun c => c = '/') with
  | some kRev =>
    let j := run.length - 1 - kRev
    if 1 ≤ j then some j else none
  | none => none

/-- Substitution `re.sub(r'/[^\s]+/', '[PATH]/', e)`. -/
def subSlashPath (s : List Char) : List Char :=
  match s with
  | [] => []
  | c :: t =>
    if c = '/' then
      match lastSlashIdx (t.takeWhile (fun x => !isPySpace x)) with
      | some j => "[PATH]/".toList ++ subSlashPath (t.drop (j + 1))
      | none => c :: subSlashPath t
    else c :: subSlashPath t
termination_by s.length
decreasing_by all_goals (simp [List.length_drop]; try omega)

/-- Substitution `re.sub(r'[A-Z]:\\[^\s]+', '[PATH]', e)`. -/
def subWinPath (s : List Char) : List Char :=
  match s with
  | c :: ':' :: '\\' :: r =>
    if 65 ≤ c.toNat && c.toNat ≤ 90 &&
        !(r.takeWhile (fun x => !isPySpace x)).isEmpty then
      "[PATH]".toList ++
        subWinPath (r.drop (r.takeWhile (fun x => !isPySpace x)).length)
    else c :: subWinPath (':' :: '\\' :: r)
  | c :: t => c :: subWinPath t
  | [] => []
termination_by s.length
decreasing_by all_goals (simp [List.length_drop]; try omega)

/-- Model of `SecurityValidator.sanitize_error`: redact POSIX paths, then
Windows paths. -/
def sanitize_error (e : List Char) : List Char :=
  subWinPath (subSlashPath e)

/-! ## AnswerValidator.numbers_match -/

/-- Modelled from the spec: `src/agent/validation.py` (the
`AnswerValidator` class imported by `src/agent/graph.py` and exercised by
`src/tests/test_validation.py`) is not present under `src/`.  Following
spec section 4.6: `numbers_match(a, b, tolerance)` is true if both values
are within an absolute epsilon of 0 (approx. 0.01) when the larger
magnitude is near zero; otherwise true iff
`|a - b| <= tolerance * max(|a|, |b|)`.  Real values are embedded as
rationals. -/
def numbers_match (a b tolerance : ℚ) : Bool :=
  if |a| ≤ 1 / 100 ∧ |b| ≤ 1 / 100 then true
  else decide (|a - b| ≤ tolerance * max |a| |b|)

/-! ## Orchestrator (src/agent/graph.py, PropertyManagementAgent) -/

/-- Result triple of `DatabaseManager.execute_query`:
`(success, result, error_message)`.  Result rows are opaque to the
orchestrator routing. -/
structure ExecResult where
  success : Bool
  result : List (List Int)
  error : List Char
deriving DecidableEq

/-- External collaborators (the LLM text generator and the SQL
executor).  `genSql` is given the retry count and the error log (the
data from which the source builds the retry prompt); `genAnswer`
abstracts the answer generation together with the
`AnswerValidator`-based formatting of `_generate_answer_node` (whose
class is absent from `src/`); it returns the formatted answer text, the
`validation_passed` flag and the confidence score.  An `Except.error`
models a raised exception, caught by `query`. -/
structure Oracles where
  genSql : Nat → List (List Char) → Except (List Char) (List Char)
  execQuery : List Char → Except (List Char) ExecResult
  genAnswer : List (List Int) → Except (List Char) (List Char × Bool × ℚ)

/-- The LangGraph node names, plus the terminal `finished`. -/
inductive Phase
  | generateSql
  | validateSql
  | executeSql
  | handleError
  | generateAnswer
  | finished
deriving DecidableEq

/-- The `AgentState` TypedDict (the `messages` and `schema_metadata`
fields, which never influence control flow or the response, are not
modelled).  `genCalls`, `execCalls` and `failedRoute` are ghost
instrumentation fields used only in theorem statements: they count
generator/executor invocations and record that the error router
exhausted the retry budget. -/
structure AgentSt where
  user_query : List Char
  user_context : UserContext
  sql_query : Option (List Char)
  sql_result : Option (List (List Int))
  final_answer : Option (List Char)
  retry_count : Nat
  error_log : List (List Char)
  validation_passed : Bool
  confidence : ℚ
  genCalls : Nat
  execCalls : Nat
  failedRoute : Bool
deriving DecidableEq

/-- The initial state built by `query`. -/
def initSt (uq : List Char) (ctx : UserContext) : AgentSt :=
  { user_query := uq, user_context := ctx, sql_query := none,
    sql_result := none, final_answer := none, retry_count := 0,
    error_log := [], validation_passed := true, confidence := 1,
    genCalls := 0, execCalls := 0, failedRoute := false }

/-- Python truthiness of the `final_answer` field, as used by
`_sql_generation_router` (`if state["final_answer"]:`). -/
def pyTruthy : Option (List Char) → Bool
  | none => false
  | some s => !s.isEmpty

/-- Markdown cleanup of the generated SQL:
`content.strip().replace("```sql", "").replace("```", "").strip()`. -/
def replaceAllGo (pat rep : List Char) : Nat → List Char → List Char
  | _, [] => []
  | 0, s => s
  | fuel + 1, c :: t =>
    if pat.isEmpty then c :: t
    else
      match stripPre pat (c :: t) with
      | some _ => rep ++ replaceAllGo pat rep fuel ((c :: t).drop pat.length)
      | none => c :: replaceAllGo pat rep fuel t

def replaceAll (pat rep : List Char) (s : List Char) : List Char :=
  replaceAllGo pat rep s.length s

/-- Routing of `_sql_generation_router`. -/
def genRoute (st : AgentSt) : Phase :=
  if pyTruthy st.final_answer then .finished else .validateSql

/-- Routing of `_validation_router`: error iff the error log is nonempty
and its last entry starts with "Security validation". -/
def valRoute (st : AgentSt) : Phase :=
  match st.error_log.getLast? with
  | some m =>
    if (stripPre "Security validation".toList m).isSome then .handleError
    else .executeSql
  | none => .executeSql

/-- Clean-up applied to the generator output in `_generate_sql_node`. -/
def cleanSql (s : List Char) : List Char :=
  pyStrip (replaceAll "```".toList [] (replaceAll "```sql".toList [] (pyStrip s)))

/-- One LangGraph transition: run the node of the current phase, then
its conditional-edge router.  `Except.error` propagates a raised
exception out of `graph.invoke`. -/
def stepPhase (o : Oracles) (maxRetries : Nat) :
    Phase × AgentSt → Except (List Char) (Phase × AgentSt)
  | (.generateSql, st) =>
    if st.retry_count = 0 && !(is_data_query st.user_query).1 then
      let st2 := { st with final_answer := some (is_data_query st.user_query).2 }
      .ok (genRoute st2, st2)
    else
      let auth := validate_query_intent st.user_query st.user_context
      if !auth.1 then
        let st2 := { st with
          error_log := st.error_log ++ ["Authorization error: ".toList ++ auth.2],
          final_answer := some auth.2 }
        .ok (genRoute st2, st2)
      else
        match o.genSql st.retry_count st.error_log with
        | .error e => .error e
        | .ok out =>
          let st2 := { st with
            sql_query := some (cleanSql out),
            genCalls := st.genCalls + 1 }
          .ok (genRoute st2, st2)
  | (.validateSql, st) =>
    let sql := st.sql_query.getD []
    let v := validate_query sql
    let st2 :=
      if v.1 then
        { st with sql_query := some (apply_rbac sql st.user_context) }
      else
        { st with error_log :=
            st.error_log ++ ["Security validation failed: ".toList ++ v.2] }
    .ok (valRoute st2, st2)
  | (.executeSql, st) =>
    match o.execQuery (st.sql_query.getD []) with
    | .error e => .error e
    | .ok r =>
      let st1 := { st with execCalls := st.execCalls + 1 }
      let st2 :=
        if r.success then { st1 with sql_result := some r.result }
        else
          { st1 with error_log := st1.error_log ++
              ["SQL execution error: ".toList ++ sanitize_error r.error] }
      .ok (if st2.sql_result.isSome then .generateAnswer else .handleError, st2)
  | (.handleError, st) =>
    let st2 := { st with retry_count := st.retry_count + 1 }
    if st2.retry_count < maxRetries then .ok (.generateSql, st2)
    else .ok (.finished, { st2 with failedRoute := true })
  | (.generateAnswer, st) =>
    match o.genAnswer (st.sql_result.getD []) with
    | .error e => .error e
    | .ok (ans, vp, conf) =>
      .ok (.finished, { st with
        final_answer := some ans, validation_passed := vp,
        confidence := conf, genCalls := st.genCalls + 1 })
  | (.finished, st) => .ok (.finished, st)

/-- Fuel-bounded iteration of `stepPhase`; the terminal phase is
absorbing. -/
def runAux (o : Oracles) (maxRetries : Nat) :
    Nat → Phase × AgentSt → Except (List Char) (Phase × AgentSt)
  | 0, p => .ok p
  | fuel + 1, (ph, st) =>
    if ph = .finished then .ok (ph, st)
    else
      match stepPhase o maxRetries (ph, st) with
      | .error e => .error e
      | .ok q => runAux o maxRetries fuel q

/-- The response dictionary returned by `query`. -/
structure Resp where
  success : Bool
  answer : List Char
  sql_query : Option (List Char)
  retry_count : Nat
  errors : List (List Char)
  validation_passed : Bool
  confidence : ℚ
  error_type : Option (List Char)
  technical_details : Option (List Char)
deriving DecidableEq

/-- The fallback answer used when `final_answer` is `None`. -/
def fallbackAnswer : List Char :=
  "I apologize, but I couldn".toList ++ [apoc] ++
  "t generate an answer. Please try rephrasing your question.".toList

/-- The success-path response built from the final state. -/
def buildResponse (st : AgentSt) : Resp :=
  { success := st.final_answer.isSome,
    answer := st.final_answer.getD fallbackAnswer,
    sql_query := st.sql_query,
    retry_count := st.retry_count,
    errors := st.error_log,
    validation_passed := st.validation_passed,
    confidence := st.confidence,
    error_type := none,
    technical_details := none }

def msgQuota : List Char :=
  "I".toList ++ [apoc] ++
  ("ve reached my API usage limit. Please try again in a minute or " ++
   "contact your administrator for a higher quota tier.").toList

def msgAuth : List Char :=
  "I".toList ++ [apoc] ++
  ("m having trouble connecting to my AI service. Please contact your " ++
   "administrator to verify the API key configuration.").toList

def msgNetwork : List Char :=
  "I".toList ++ [apoc] ++
  ("m having trouble connecting to my AI service. Please check your " ++
   "internet connection and try again in a moment.").toList

def msgDatabase : List Char :=
  "I".toList ++ [apoc] ++
  "m having trouble accessing the database. Please ensure the database file exists.".toList

def msgGeneric : List Char :=
  ("I encountered an unexpected error while processing your question. " ++
   "Please try rephrasing or contact your administrator.").toList

def isQuotaErr (e : List Char) : Bool :=
  containsSub "RESOURCE_EXHAUSTED".toList e || containsSub "429".toList e ||
  containsSub "quota".toList (lowS e)

def isAuthErr (e : List Char) : Bool :=
  containsSub "API_KEY".toList e ||
  containsSub "authentication".toList (lowS e) ||
  containsSub "401".toList e

def isNetworkErr (e : List Char) : Bool :=
  containsSub "connection".toList (lowS e) ||
  containsSub "timeout".toList (lowS e)

def isDatabaseErr (e : List Char) : Bool :=
  containsSub "database".toList (lowS e) ||
  containsSub "sqlite".toList (lowS e)

/-- Model of `PropertyManagementAgent._handle_query_error`: map a raised
exception's text to a category-specific friendly message; `debug` is the
`DEBUG_MODE` environment flag. -/
def handleQueryError (e : List Char) (debug : Bool) : Resp :=
  let pick : List Char × List Char :=
    if isQuotaErr e then (msgQuota, "API_QUOTA".toList)
    else if isAuthErr e then (msgAuth, "API_AUTH".toList)
    else if isNetworkErr e then (msgNetwork, "NETWORK".toList)
    else if isDatabaseErr e then (msgDatabase, "DATABASE".toList)
    else (msgGeneric, "GENERAL".toList)
  { success := false,
    answer := pick.1,
    sql_query := none,
    retry_count := 0,
    errors := [pick.2],
    validation_passed := true,
    confidence := 0,
    error_type := some pick.2,
    technical_details := if debug then some e else none }

/-- Fuel large enough for any complete run: each retry loop visits at
most four non-terminal phases. -/
def queryFuel (maxRetries : Nat) : Nat := 5 * maxRetries + 25

/-- Model of `PropertyManagementAgent.query`: run the graph from the
initial state; a raised exception is mapped by `_handle_query_error`
without any further generator call.  (The conversation-memory update,
which does not influence the response, is not modelled.) -/
def queryRun (o : Oracles) (maxRetries : Nat) (debug : Bool)
    (uq : List Char) (ctx : UserContext) : Resp :=
  match runAux o maxRetries (queryFuel maxRetries) (.generateSql, initSt uq ctx) with
  | .error e => handleQueryError e debug
  | .ok (_, st) => buildResponse st

/-! ## Reachability and analysis helpers -/

/-- States reachable by the graph from a given configuration (stepping
only from non-terminal phases, as `runAux` does). -/
inductive Reaches (o : Oracles) (maxRetries : Nat) (init : Phase × AgentSt) :
    Phase × AgentSt → Prop
  | refl : Reaches o maxRetries init init
  | step {p q : Phase × AgentSt} :
      Reaches o maxRetries init p → p.1 ≠ .finished →
      stepPhase o maxRetries p = .ok q → Reaches o maxRetries init q

/-- Projection of an `Except` result to `Option`. -/
def exToOpt : Except (List Char) (Phase × AgentSt) → Option (Phase × AgentSt)
  | .ok p => some p
  | .error _ => none

/-- Maximal word-character runs of a string, in order.  A word-bounded
occurrence of an all-word-character literal is exactly a membership in
this list (proved below). -/
def wordsOf : List Char → List (List Char)
  | [] => []
  | c :: t =>
    let r := wordsOf t
    if isWordChar c then
      match t with
      | d :: _ => if isWordChar d then (c :: r.headD []) :: r.tail else [c] :: r
      | [] => [[c]]
    else r

/-- An owner context with matching `user_id` and `owner_id`, as built by
the front ends. -/
def ownerCtx (k : Int) : UserContext :=
  { user_id := k, role := "owner".toList, owner_id := some k }

/-- The admin context used by the tests. -/
def adminCtx : UserContext :=
  { user_id := 999, role := "admin".toList, owner_id := none }

/-- An executor that always succeeds with no rows, and an answer
generator that always succeeds. -/
def okExec : List Char → Except (List Char) ExecResult :=
  fun _ => .ok { success := true, result := [], error := [] }

def okAnswer : List (List Int) → Except (List Char) (List Char × Bool × ℚ) :=
  fun _ => .ok ("done".toList, true, 1)

/-- Oracle whose generator always returns the same SQL text. -/
def oracleConst (sql : List Char) : Oracles :=
  { genSql := fun _ _ => .ok sql, execQuery := okExec, genAnswer := okAnswer }

/-- Oracle whose generator raises on every call. -/
def oracleRaise (e : List Char) : Oracles :=
  { genSql := fun _ _ => .error e, execQuery := okExec, genAnswer := okAnswer }

/-- Oracle for the stale-log scenario: the first attempt produces a
denylisted statement, every retry produces a valid one. -/
def c1Oracle : Oracles :=
  { genSql := fun r _ =>
      .ok (if r = 0 then "DROP TABLE Properties".toList
           else "SELECT * FROM Properties".toList),
    execQuery := okExec, genAnswer := okAnswer }

/-- The shape produced by a successful alias capture: the captured word
is preceded by a whitespace character and followed by a non-word
character or the end of the input. -/
def CaptureShape (s ref rest : List Char) : Prop :=
  (∃ u u0 d, s = u ++ ref ++ rest ∧ u = u0 ++ [d] ∧ isPySpace d = true) ∧
  ref ≠ [] ∧ (∀ c ∈ ref, isWordChar c = true) ∧
  (rest = [] ∨ ∃ e r2, rest = e :: r2 ∧ isWordChar e = false)

/-- Inductive invariant for the retry budget: the retry count never
exceeds the budget, in any non-terminal phase strictly so with the
exhaustion flag still clear, and the exhaustion flag implies the count
equals the budget. -/
def RetryInv (mr : Nat) (p : Phase × AgentSt) : Prop :=
  p.2.retry_count ≤ mr ∧
  (p.1 ≠ Phase.finished → p.2.retry_count < mr ∧ p.2.failedRoute = false) ∧
  (p.2.failedRoute = true → p.2.retry_count = mr)

/-! ## Character-class lemmas -/

theorem isWordChar_lowC (c : Char) : isWordChar (lowC c) = isWordChar c := by
  unfold lowC
  split <;> rfl

theorem lowC_upC (c : Char) : lowC (upC c) = lowC c := by
  unfold upC
  split <;> rfl

theorem lowS_append (x y : List Char) : lowS (x ++ y) = lowS x ++ lowS y := by
  simp [lowS]

theorem lowS_upS (s : List Char) : lowS (upS s) = lowS s := by
  simp only [lowS, upS, List.map_map]
  apply List.map_congr_left
  intro c _
  exact lowC_upC c

theorem lowS_length (s : List Char) : (lowS s).length = s.length := by
  simp [lowS]

/-! ## takeWhile/dropWhile helpers -/

theorem takeWhile_append_all (p : Char → Bool) (xs ys : List Char)
    (h : ∀ x ∈ xs, p x = true) :
    (xs ++ ys).takeWhile p = xs ++ ys.takeWhile p := by
  induction xs with
  | nil => simp
  | cons a t ih =>
    have ha : p a = true := h a (by simp)
    simp [List.takeWhile, ha]
    exact ih (fun x hx => h x (by simp [hx]))

theorem dropWhile_append_all (p : Char → Bool) (xs ys : List Char)
    (h : ∀ x ∈ xs, p x = true) :
    (xs ++ ys).dropWhile p = ys.dropWhile p := by
  induction xs with
  | nil => simp
  | cons a t ih =>
    have ha : p a = true := h a (by simp)
    simp [List.dropWhile, ha]
    exact ih (fun x hx => h x (by simp [hx]))

theorem takeWhile_append_stop (p : Char → Bool) (xs ys : List Char)
    (h : xs.all p = false) :
    (xs ++ ys).takeWhile p = xs.takeWhile p := by
  induction xs with
  | nil => simp at h
  | cons a t ih =>
    by_cases ha : p a = true
    · simp [List.takeWhile, ha]
      simp [List.all_cons, ha] at h
      exact ih (by simpa using h)
    · simp at ha
      simp [List.takeWhile, ha]

theorem dropWhile_append_stop (p : Char → Bool) (xs ys : List Char)
    (h : xs.all p = false) :
    (xs ++ ys).dropWhile p = xs.dropWhile p ++ ys := by
  induction xs with
  | nil => simp at h
  | cons a t ih =>
    by_cases ha : p a = true
    · simp [List.dropWhile, ha]
      simp [List.all_cons, ha] at h
      exact ih (by simpa using h)
    · simp at ha
      simp [List.dropWhile, ha]

theorem dropWhile_head_not (p : Char → Bool) (l : List Char) (e : Char)
    (l2 : List Char) (h : l.dropWhile p = e :: l2) : p e = false := by
  induction l with
  | nil => simp [List.dropWhile] at h
  | cons a t ih =>
    by_cases ha : p a = true
    · simp [List.dropWhile, ha] at h
      exact ih h
    · simp at ha
      simp [List.dropWhile, ha] at h
      rw [← h.1]
      exact ha

/-! ## wordsOf: maximal word runs -/

theorem wordsOf_cons_not (c : Char) (t : List Char)
    (h : isWordChar c = false) : wordsOf (c :: t) = wordsOf t := by
  cases t <;> simp [wordsOf, h]

theorem wordsOf_cons_word (c : Char) (t : List Char)
    (h : isWordChar c = true) :
    wordsOf (c :: t) =
      (c :: t.takeWhile isWordChar) :: wordsOf (t.dropWhile isWordChar) := by
  induction t generalizing c with
  | nil => simp [wordsOf, h, List.takeWhile, List.dropWhile]
  | cons d t2 ih =>
    by_cases hd : isWordChar d = true
    · have ihd := ih d hd
      simp only [wordsOf, h, if_true, hd] at ihd ⊢
      rw [ihd]
      simp [List.takeWhile, List.dropWhile, hd]
    · simp at hd
      simp only [wordsOf, h, if_true, hd]
      simp [List.takeWhile, List.dropWhile, hd, wordsOf_cons_not d t2 hd]

theorem wordsOf_all_word (u : List Char) (hne : u ≠ [])
    (h : ∀ c ∈ u, isWordChar c = true) : wordsOf u = [u] := by
  cases u with
  | nil => exact absurd rfl hne
  | cons c t =>
    rw [wordsOf_cons_word c t (h c (by simp))]
    have ht : t.takeWhile isWordChar = t :=
      List.takeWhile_eq_self_iff.mpr (fun x hx => h x (by simp [hx]))
    have hd : t.dropWhile isWordChar = [] :=
      List.dropWhile_eq_nil_iff.mpr (fun x hx => h x (by simp [hx]))
    rw [ht, hd]
    rfl

theorem wordsOf_all_notword (u : List Char)
    (h : ∀ c ∈ u, isWordChar c = false) : wordsOf u = [] := by
  induction u with
  | nil => rfl
  | cons c t ih =>
    rw [wordsOf_cons_not c t (h c (by simp))]
    exact ih (fun x hx => h x (by simp [hx]))

theorem dropWhileLenLe (p : Char → Bool) (l : List Char) :
    (l.dropWhile p).length ≤ l.length := by
  induction l with
  | nil => simp [List.dropWhile]
  | cons a t ih =>
    by_cases ha : p a = true
    · simp [List.dropWhile, ha]
      omega
    · simp at ha
      simp [List.dropWhile, ha]

theorem wordsOf_append_break (u v : List Char) (c : Char)
    (hc : isWordChar c = false) :
    wordsOf (u ++ c :: v) = wordsOf u ++ wordsOf v := by
  have main : ∀ n u, u.length ≤ n →
      wordsOf (u ++ c :: v) = wordsOf u ++ wordsOf v := by
    intro n
    induction n with
    | zero =>
      intro u hu
      have : u = [] := List.length_eq_zero.mp (Nat.le_zero.mp hu)
      subst this
      simp only [List.nil_append]
      rw [wordsOf_cons_not c v hc]
      rfl
    | succ n ih =>
      intro u hu
      cases u with
      | nil =>
        simp only [List.nil_append]
        rw [wordsOf_cons_not c v hc]
        rfl
      | cons a u2 =>
        by_cases ha : isWordChar a = true
        · rw [List.cons_append, wordsOf_cons_word a (u2 ++ c :: v) ha,
            wordsOf_cons_word a u2 ha]
          by_cases hall : u2.all isWordChar = true
          · have hmem : ∀ x ∈ u2, isWordChar x = true := by
              intro x hx
              exact List.all_eq_true.mp hall x hx
            rw [takeWhile_append_all _ u2 (c :: v) hmem,
              dropWhile_append_all _ u2 (c :: v) hmem]
            have h1 : (c :: v).takeWhile isWordChar = [] := by
              simp [List.takeWhile, hc]
            have h2 : (c :: v).dropWhile isWordChar = c :: v := by
              simp [List.dropWhile, hc]
            have h3 : u2.takeWhile isWordChar = u2 :=
              List.takeWhile_eq_self_iff.mpr hmem
            have h4 : u2.dropWhile isWordChar = [] :=
              List.dropWhile_eq_nil_iff.mpr hmem
            rw [h1, h2, h3, h4, wordsOf_cons_not c v hc]
            simp [wordsOf]
          · have hall2 : u2.all isWordChar = false := by
              simpa using hall
            rw [takeWhile_append_stop _ u2 (c :: v) hall2,
              dropWhile_append_stop _ u2 (c :: v) hall2]
            have hlen : (u2.dropWhile isWordChar).length ≤ n := by
              have h1 : (u2.dropWhile isWordChar).length ≤ u2.length :=
                dropWhileLenLe isWordChar u2
              simp at hu
              omega
            rw [ih (u2.dropWhile isWordChar) hlen]
            simp
        · simp at ha
          rw [List.cons_append, wordsOf_cons_not a (u2 ++ c :: v) ha,
            wordsOf_cons_not a u2 ha]
          have hlen : u2.length ≤ n := by
            simp at hu
            omega
          exact ih u2 hlen
  exact main u.length u le_rfl

theorem wordsOf_append_nonword (u v : List Char)
    (h : ∀ c ∈ v, isWordChar c = false) : wordsOf (u ++ v) = wordsOf u := by
  cases v with
  | nil => simp
  | cons c v2 =>
    rw [wordsOf_append_break u v2 c (h c (by simp)),
      wordsOf_all_notword v2 (fun x hx => h x (by simp [hx]))]
    simp

/-! ## Prefix-match lemmas -/

theorem stripPreCI_decomp (w : List Char) :
    ∀ s r, stripPreCI w s = some r → ∃ m, s = m ++ r ∧ lowS m = lowS w := by
  induction w with
  | nil =>
    intro s r h
    simp [stripPreCI] at h
    exact ⟨[], by simp [h], rfl⟩
  | cons a p ih =>
    intro s r h
    cases s with
    | nil => simp [stripPreCI] at h
    | cons b s2 =>
      simp only [stripPreCI] at h
      split at h
      · obtain ⟨m2, hm2, hlow⟩ := ih s2 r h
        rename_i hab
        exact ⟨b :: m2, by simp [hm2], by simp [lowS] at hlow ⊢; exact ⟨hab.symm, hlow⟩⟩
      · cases h

theorem stripPreCI_of_lowEq (w : List Char) :
    ∀ m b, lowS m = lowS w → stripPreCI w (m ++ b) = some b := by
  induction w with
  | nil =>
    intro m b h
    have : m = [] := by
      have := congrArg List.length h
      simpa [lowS] using this
    subst this
    simp [stripPreCI]
  | cons a p ih =>
    intro m b h
    cases m with
    | nil =>
      have := congrArg List.length h
      simp [lowS] at this
    | cons x m2 =>
      simp only [lowS, List.map_cons, List.cons.injEq] at h
      simp only [List.cons_append, stripPreCI]
      rw [if_pos h.1.symm]
      exact ih m2 b h.2

theorem stripPre_self (n : List Char) : ∀ y, stripPre n (n ++ y) = some y := by
  induction n with
  | nil => intro y; simp [stripPre]
  | cons a p ih => intro y; simp [stripPre, ih]

theorem containsSub_nil_needle (s : List Char) : containsSub [] s = true := by
  cases s <;> simp [containsSub, stripPre]

theorem containsSub_mid (n x y : List Char) :
    containsSub n (x ++ n ++ y) = true := by
  induction x with
  | nil =>
    simp only [List.nil_append]
    cases hn : n with
    | nil => simp [containsSub_nil_needle]
    | cons a p =>
      have hss := stripPre_self n y
      rw [hn] at hss
      simp only [List.cons_append] at hss
      simp only [List.cons_append, containsSub, List.append_eq, hss]
      simp
  | cons a x2 ih =>
    simp only [List.cons_append, containsSub, List.append_eq]
    simp only [List.cons_append, List.append_assoc] at ih ⊢
    rw [ih]
    simp

/-! ## Scanner soundness and completeness -/

theorem findWordCIAux_sound (w : List Char) :
    ∀ s prev i0 i, findWordCIAux w prev s i0 = some i →
    ∃ a m b, s = a ++ m ++ b ∧ a.length + i0 = i ∧ lowS m = lowS w ∧
      ((a = [] ∧ bdryB prev = true) ∨
        ∃ a0 d, a = a0 ++ [d] ∧ isWordChar d = false) ∧
      bdryA b = true := by
  intro s
  induction s with
  | nil => intro prev i0 i h; simp [findWordCIAux] at h
  | cons c t ih =>
    intro prev i0 i h
    simp only [findWordCIAux] at h
    split at h
    · rename_i hcond
      simp only [Bool.and_eq_true] at hcond
      obtain ⟨hb, hmatch⟩ := hcond
      cases hsp : stripPreCI w (c :: t) with
      | none => rw [hsp] at hmatch; cases hmatch
      | some r =>
        rw [hsp] at hmatch
        obtain ⟨m, hm, hlow⟩ := stripPreCI_decomp w (c :: t) r hsp
        refine ⟨[], m, r, by simpa using hm, ?_, hlow, Or.inl ⟨rfl, hb⟩, hmatch⟩
        have hi : i0 = i := by simpa using h
        simp [hi]
    · obtain ⟨a, m, b, hs, hlen, hlow, hbd, hba⟩ := ih (some c) (i0 + 1) i h
      refine ⟨c :: a, m, b, by simp [hs], by simp; omega, hlow, ?_, hba⟩
      rcases hbd with ⟨ha, hprev⟩ | ⟨a0, d, ha, hd⟩
      · subst ha
        refine Or.inr ⟨[], c, by simp, ?_⟩
        simp [bdryB] at hprev
        simpa using hprev
      · exact Or.inr ⟨c :: a0, d, by simp [ha], hd⟩

theorem findWordCIAux_complete (w : List Char) (hw : w ≠ []) :
    ∀ a prev (m b : List Char) i0, lowS m = lowS w →
    ((a = [] ∧ bdryB prev = true) ∨
      ∃ a0 d, a = a0 ++ [d] ∧ isWordChar d = false) →
    bdryA b = true →
    (findWordCIAux w prev (a ++ m ++ b) i0).isSome = true := by
  intro a
  induction a with
  | nil =>
    intro prev m b i0 hlow hbd hba
    have hprev : bdryB prev = true := by
      rcases hbd with ⟨_, h⟩ | ⟨a0, d, h, _⟩
      · exact h
      · exact absurd h.symm (by simp)
    have hm : m ≠ [] := by
      intro hm
      subst hm
      have := congrArg List.length hlow
      simp [lowS] at this
      exact hw (List.length_eq_zero.mp this.symm)
    cases m with
    | nil => exact absurd rfl hm
    | cons x m2 =>
      have hsp := stripPreCI_of_lowEq w (x :: m2) b hlow
      simp only [List.cons_append] at hsp
      simp only [List.nil_append, List.cons_append, findWordCIAux, List.append_eq, hsp]
      simp [hprev, hba]
  | cons x a2 ih =>
    intro prev m b i0 hlow hbd hba
    simp only [List.cons_append, findWordCIAux]
    split
    · simp
    · apply ih (some x) m b (i0 + 1) hlow ?_ hba
      rcases hbd with ⟨h, -⟩ | ⟨a0, d, ha, hd⟩
      · exact absurd h (by simp)
      · cases a0 with
        | nil =>
          simp only [List.nil_append] at ha
          cases a2 with
          | nil =>
            simp only [List.cons.injEq, and_true] at ha
            refine Or.inl ⟨rfl, ?_⟩
            rw [ha]
            simp [bdryB, hd]
          | cons y a3 => simp at ha
        | cons z a1 =>
          simp only [List.cons_append, List.cons.injEq] at ha
          cases a2 with
          | nil => exact absurd ha.2 (by simp)
          | cons y a3 => exact Or.inr ⟨a1, d, ha.2, hd⟩

/-! ## Scanner vs word runs -/

theorem takeWhile_lowS (t : List Char) :
    (lowS t).takeWhile isWordChar = lowS (t.takeWhile isWordChar) := by
  induction t with
  | nil => rfl
  | cons c t2 ih =>
    by_cases hc : isWordChar c = true
    · simp [lowS, List.takeWhile, isWordChar_lowC, hc] at ih ⊢
      exact ih
    · simp at hc
      simp [lowS, List.takeWhile, isWordChar_lowC, hc]

theorem dropWhile_lowS (t : List Char) :
    (lowS t).dropWhile isWordChar = lowS (t.dropWhile isWordChar) := by
  induction t with
  | nil => rfl
  | cons c t2 ih =>
    by_cases hc : isWordChar c = true
    · simp [lowS, List.dropWhile, isWordChar_lowC, hc] at ih ⊢
      exact ih
    · simp at hc
      simp [lowS, List.dropWhile, isWordChar_lowC, hc]

theorem mem_wordsOf_run (lw lb : List Char) (hlw : lw ≠ [])
    (hall : ∀ c ∈ lw, isWordChar c = true)
    (hb : lb = [] ∨ ∃ e b2, lb = e :: b2 ∧ isWordChar e = false) :
    lw ∈ wordsOf (lw ++ lb) := by
  rcases hb with hb | ⟨e, b2, hb, he⟩
  · subst hb
    simp [wordsOf_all_word lw hlw hall]
  · subst hb
    rw [wordsOf_append_break lw b2 e he, wordsOf_all_word lw hlw hall]
    simp

theorem mem_wordsOf_of_low_occurrence (lw : List Char) (hlw : lw ≠ [])
    (hall : ∀ c ∈ lw, isWordChar c = true) (s a m b : List Char)
    (hs : s = a ++ m ++ b) (hm : lowS m = lw)
    (hba : a = [] ∨ ∃ a0 d, a = a0 ++ [d] ∧ isWordChar d = false)
    (hbb : b = [] ∨ ∃ e b2, b = e :: b2 ∧ isWordChar e = false) :
    lw ∈ wordsOf (lowS s) := by
  have hblow : lowS b = [] ∨
      ∃ e b2, lowS b = e :: b2 ∧ isWordChar e = false := by
    rcases hbb with hbb | ⟨e, b2, hbb, he⟩
    · subst hbb; exact Or.inl rfl
    · subst hbb
      exact Or.inr ⟨lowC e, lowS b2, by simp [lowS], by rw [isWordChar_lowC]; exact he⟩
  have hrun : lw ∈ wordsOf (lw ++ lowS b) := mem_wordsOf_run lw (lowS b) hlw hall hblow
  subst hs
  rcases hba with hba | ⟨a0, d, hba, hd⟩
  · subst hba
    simp only [List.nil_append, lowS_append, hm]
    exact hrun
  · subst hba
    have : lowS (a0 ++ [d] ++ m ++ b) = lowS a0 ++ lowC d :: (lw ++ lowS b) := by
      simp only [lowS_append, List.append_assoc]
      simp [lowS]
      exact hm
    rw [this, wordsOf_append_break (lowS a0) (lw ++ lowS b) (lowC d)
      (by rw [isWordChar_lowC]; exact hd)]
    exact List.mem_append_right _ hrun

theorem low_occurrence_of_mem (lw : List Char) (hlw : lw ≠ [])
    (hall : ∀ c ∈ lw, isWordChar c = true) :
    ∀ n (s : List Char), s.length ≤ n → lw ∈ wordsOf (lowS s) →
    ∃ a m b, s = a ++ m ++ b ∧ lowS m = lw ∧
      (a = [] ∨ ∃ a0 d, a = a0 ++ [d] ∧ isWordChar d = false) ∧
      (b = [] ∨ ∃ e b2, b = e :: b2 ∧ isWordChar e = false) := by
  intro n
  induction n with
  | zero =>
    intro s hs hmem
    have : s = [] := List.length_eq_zero.mp (Nat.le_zero.mp hs)
    subst this
    simp [lowS, wordsOf] at hmem
  | succ n ih =>
    intro s hs hmem
    cases s with
    | nil => simp [lowS, wordsOf] at hmem
    | cons c t =>
      have hlows : lowS (c :: t) = lowC c :: lowS t := by simp [lowS]
      by_cases hc : isWordChar c = true
      · have hlc : isWordChar (lowC c) = true := by rw [isWordChar_lowC]; exact hc
        rw [hlows, wordsOf_cons_word (lowC c) (lowS t) hlc] at hmem
        rcases List.mem_cons.mp hmem with hhead | htail
        · refine ⟨[], c :: t.takeWhile isWordChar, t.dropWhile isWordChar,
            by simp [List.takeWhile_append_dropWhile], ?_, Or.inl rfl, ?_⟩
          · rw [hhead, takeWhile_lowS]
            simp [lowS]
          · cases hdw : t.dropWhile isWordChar with
            | nil => exact Or.inl rfl
            | cons e b2 =>
              exact Or.inr ⟨e, b2, rfl, dropWhile_head_not isWordChar t e b2 hdw⟩
        · rw [dropWhile_lowS] at htail
          have hlen : (t.dropWhile isWordChar).length ≤ n := by
            have h1 := dropWhileLenLe isWordChar t
            simp at hs
            omega
          obtain ⟨a, m, b, hsplit, hm, hba, hbb⟩ := ih (t.dropWhile isWordChar) hlen htail
          have hane : a ≠ [] := by
            intro hanil
            subst hanil
            simp only [List.nil_append] at hsplit
            cases m with
            | nil =>
              have := congrArg List.length hm
              simp [lowS] at this
              exact hlw (List.length_eq_zero.mp this.symm)
            | cons x m2 =>
              have hx : isWordChar x = false :=
                dropWhile_head_not isWordChar t x (m2 ++ b) (by simpa using hsplit)
              have hx2 : isWordChar (lowC x) = true := by
                apply hall
                rw [← hm]
                simp [lowS]
              rw [isWordChar_lowC] at hx2
              rw [hx2] at hx
              cases hx
          rcases hba with hba | ⟨a0, d, hba, hd⟩
          · exact absurd hba hane
          · refine ⟨c :: t.takeWhile isWordChar ++ a0 ++ [d], m, b, ?_, hm,
              Or.inr ⟨c :: t.takeWhile isWordChar ++ a0, d, by simp, hd⟩, hbb⟩
            have ht : t = t.takeWhile isWordChar ++ (a0 ++ [d] ++ m ++ b) := by
              conv_lhs => rw [← List.takeWhile_append_dropWhile isWordChar t]
              rw [hsplit, hba]
            simp only [List.append_assoc] at ht
            simp only [List.cons_append, List.append_assoc]
            exact congrArg (fun l => c :: l) ht
      · simp at hc
        have hlc : isWordChar (lowC c) = false := by rw [isWordChar_lowC]; exact hc
        rw [hlows, wordsOf_cons_not (lowC c) (lowS t) hlc] at hmem
        have hlen : t.length ≤ n := by simp at hs; omega
        obtain ⟨a, m, b, hsplit, hm, hba, hbb⟩ := ih t hlen hmem
        refine ⟨c :: a, m, b, by simp [hsplit], hm, ?_, hbb⟩
        rcases hba with hba | ⟨a0, d, hba, hd⟩
        · subst hba
          exact Or.inr ⟨[], c, by simp, hc⟩
        · exact Or.inr ⟨c :: a0, d, by simp [hba], hd⟩

theorem hasWordCI_iff (w s : List Char) (hw : w ≠ [])
    (hallw : ∀ c ∈ w, isWordChar c = true) :
    hasWordCI w s = true ↔ lowS w ∈ wordsOf (lowS s) := by
  have hlwne : lowS w ≠ [] := by
    intro h
    have := congrArg List.length h
    simp [lowS] at this
    exact hw this
  have hlwall : ∀ c ∈ lowS w, isWordChar c = true := by
    intro c hc
    obtain ⟨d, hd, hcd⟩ := List.mem_map.mp hc
    rw [← hcd, isWordChar_lowC]
    exact hallw d hd
  constructor
  · intro h
    simp only [hasWordCI, findWordCI, Option.isSome_iff_exists] at h
    obtain ⟨i, hi⟩ := h
    obtain ⟨a, m, b, hs, -, hlow, hbd, hba⟩ := findWordCIAux_sound w s none 0 i hi
    apply mem_wordsOf_of_low_occurrence (lowS w) hlwne hlwall s a m b hs hlow
    · rcases hbd with ⟨ha, -⟩ | h2
      · exact Or.inl ha
      · exact Or.inr h2
    · cases hb : b with
      | nil => exact Or.inl rfl
      | cons e b2 =>
        refine Or.inr ⟨e, b2, rfl, ?_⟩
        rw [hb] at hba
        simpa [bdryA] using hba
  · intro h
    obtain ⟨a, m, b, hs, hm, hba2, hbb⟩ :=
      low_occurrence_of_mem (lowS w) hlwne hlwall s.length s le_rfl h
    simp only [hasWordCI, findWordCI]
    rw [hs]
    apply findWordCIAux_complete w hw a none m b 0 hm
    · rcases hba2 with ha | h2
      · exact Or.inl ⟨ha, rfl⟩
      · exact Or.inr h2
    · rcases hbb with hb | ⟨e, b2, hb, he⟩
      · subst hb; rfl
      · subst hb
        simp [bdryA, he]

/-! ## Digit-string lemmas -/

theorem digitChar_range (d : Nat) :
    48 ≤ (digitChar d).toNat ∧ (digitChar d).toNat ≤ 57 := by
  unfold digitChar
  split <;> decide

theorem natStrAux_mem : ∀ fuel n acc (c : Char), c ∈ natStrAux fuel n acc →
    c ∈ acc ∨ 48 ≤ c.toNat ∧ c.toNat ≤ 57 := by
  intro fuel
  induction fuel with
  | zero =>
    intro n acc c hc
    rcases List.mem_cons.mp hc with h | h
    · exact Or.inr (h ▸ digitChar_range n)
    · exact Or.inl h
  | succ fuel ih =>
    intro n acc c hc
    rw [natStrAux] at hc
    split at hc
    · rcases List.mem_cons.mp hc with h | h
      · exact Or.inr (h ▸ digitChar_range n)
      · exact Or.inl h
    · rcases ih (n / 10) _ c hc with h | h
      · rcases List.mem_cons.mp h with h2 | h2
        · exact Or.inr (h2 ▸ digitChar_range (n % 10))
        · exact Or.inl h2
      · exact Or.inr h

theorem natStrAux_ne_nil : ∀ fuel n acc, natStrAux fuel n acc ≠ [] := by
  intro fuel
  induction fuel with
  | zero => intro n acc; simp [natStrAux]
  | succ fuel ih =>
    intro n acc
    rw [natStrAux]
    split
    · simp
    · exact ih (n / 10) _

theorem natStr_digits (n : Nat) (c : Char) (hc : c ∈ natStr n) :
    48 ≤ c.toNat ∧ c.toNat ≤ 57 := by
  rcases natStrAux_mem n n [] c hc with h | h
  · cases h
  · exact h

theorem digit_not_upper (c : Char) (h : 48 ≤ c.toNat ∧ c.toNat ≤ 57) :
    lowC c = c := by
  unfold lowC
  split <;> first | rfl | (exact absurd h (by decide))

theorem digit_isWord (c : Char) (h : 48 ≤ c.toNat ∧ c.toNat ≤ 57) :
    isWordChar c = true := by
  simp [isWordChar]
  omega

theorem natStr_lowS (n : Nat) : lowS (natStr n) = natStr n := by
  simp only [lowS]
  have h : ∀ c ∈ natStr n, lowC c = id c :=
    fun c hc => digit_not_upper c (natStr_digits n c hc)
  rw [List.map_congr_left h, List.map_id]

theorem wordsOf_intStr (k : Int) : wordsOf (lowS (intStr k)) = [natStr k.natAbs] := by
  have hrun : wordsOf (natStr k.natAbs) = [natStr k.natAbs] :=
    wordsOf_all_word (natStr k.natAbs) (natStrAux_ne_nil _ _ _)
      (fun c hc => digit_isWord c (natStr_digits _ c hc))
  unfold intStr
  split
  · have : lowS ('-' :: natStr k.natAbs) = '-' :: lowS (natStr k.natAbs) := by
      simp [lowS]
      decide
    rw [this, natStr_lowS, wordsOf_cons_not '-' _ (by decide)]
    exact hrun
  · rw [natStr_lowS]
    exact hrun

theorem natStr_head_digit (n : Nat) :
    ∃ c0 cr, natStr n = c0 :: cr ∧ 48 ≤ c0.toNat ∧ c0.toNat ≤ 57 := by
  cases h : natStr n with
  | nil => exact absurd h (natStrAux_ne_nil n n [])
  | cons c0 cr =>
    refine ⟨c0, cr, rfl, ?_⟩
    exact natStr_digits n c0 (by rw [h]; simp)

/-! ## Strip lemmas -/

theorem pySpace_not_word (c : Char) (h : isPySpace c = true) :
    isWordChar c = false := by
  simp [isPySpace] at h
  rcases h with ((((h | h) | h) | h) | h) | h <;> subst h <;> decide

theorem pyStripR_decomp (p : Char → Bool) (s : List Char) :
    ∃ rem, s = pyStripR p s ++ rem ∧ ∀ c ∈ rem, p c = true := by
  refine ⟨(s.reverse.takeWhile p).reverse, ?_, ?_⟩
  · unfold pyStripR
    rw [← List.reverse_append, List.takeWhile_append_dropWhile, List.reverse_reverse]
  · intro c hc
    rw [List.mem_reverse] at hc
    exact List.mem_takeWhile_imp hc

theorem wordsOf_lowS_stripR (p : Char → Bool) (s : List Char)
    (hp : ∀ c, p c = true → isWordChar c = false) :
    wordsOf (lowS (pyStripR p s)) = wordsOf (lowS s) := by
  obtain ⟨rem, hdec, hrem⟩ := pyStripR_decomp p s
  conv_rhs => rw [hdec]
  rw [lowS_append, wordsOf_append_nonword]
  intro c hc
  obtain ⟨d, hd, hcd⟩ := List.mem_map.mp hc
  rw [← hcd, isWordChar_lowC]
  exact hp d (hrem d hd)

theorem wordsOf_lowS_stripSqlEnd (s : List Char) :
    wordsOf (lowS (pyStripSqlEnd s)) = wordsOf (lowS s) := by
  unfold pyStripSqlEnd
  rw [wordsOf_lowS_stripR isPySpace _ pySpace_not_word,
    wordsOf_lowS_stripR (fun c => c = ';') _ ?_,
    wordsOf_lowS_stripR isPySpace _ pySpace_not_word]
  intro c hc
  simp at hc
  subst hc
  decide

/-! ## Alias-capture lemmas -/

theorem last_decomp (u : List Char) (h : u ≠ []) :
    ∃ u0 d, u = u0 ++ [d] ∧ d ∈ u := by
  refine ⟨u.dropLast, u.getLast h, (List.dropLast_append_getLast h).symm, List.getLast_mem h⟩

theorem skipWs1_decomp (s r : List Char) (h : skipWs1 s = some r) :
    ∃ ws, s = ws ++ r ∧ ws ≠ [] ∧ ∀ c ∈ ws, isPySpace c = true := by
  cases s with
  | nil => simp [skipWs1] at h
  | cons c t =>
    simp only [skipWs1] at h
    split at h
    · rename_i hc
      refine ⟨c :: t.takeWhile isPySpace, ?_, by simp, ?_⟩
      · simp only [Option.some.injEq] at h
        rw [← h]
        simp [List.takeWhile_append_dropWhile]
      · intro x hx
        rcases List.mem_cons.mp hx with hx | hx
        · exact hx ▸ hc
        · exact List.mem_takeWhile_imp hx
    · cases h

theorem takeWordRun_split (s : List Char) :
    s = (takeWordRun s).1 ++ (takeWordRun s).2 ∧
    (∀ c ∈ (takeWordRun s).1, isWordChar c = true) ∧
    ((takeWordRun s).2 = [] ∨
      ∃ e r2, (takeWordRun s).2 = e :: r2 ∧ isWordChar e = false) := by
  refine ⟨(List.takeWhile_append_dropWhile isWordChar s).symm,
    fun c hc => List.mem_takeWhile_imp hc, ?_⟩
  cases hdw : (takeWordRun s).2 with
  | nil => exact Or.inl rfl
  | cons e r2 =>
    exact Or.inr ⟨e, r2, rfl, dropWhile_head_not isWordChar s e r2 hdw⟩


theorem aliasTail_shape (s ref rest : List Char)
    (h : aliasTail s = some (ref, rest)) : CaptureShape s ref rest := by
  cases hws : skipWs1 s with
  | none => rw [aliasTail, hws] at h; cases h
  | some s1 =>
    obtain ⟨ws, hsws, hwsne, hwssp⟩ := skipWs1_decomp s s1 hws
    obtain ⟨hsp1, hw1, hrest1⟩ := takeWordRun_split s1
    have hfall : (if (takeWordRun s1).1.isEmpty then none
        else some (takeWordRun s1)) = some (ref, rest) →
        CaptureShape s ref rest := by
      intro hf
      split at hf
      · cases hf
      · rename_i hne
        simp only [Option.some.injEq] at hf
        have hf1 : (takeWordRun s1).1 = ref := by rw [hf]
        have hf2 : (takeWordRun s1).2 = rest := by rw [hf]
        obtain ⟨u0, d, hu, hd⟩ := last_decomp ws hwsne
        refine ⟨⟨ws, u0, d, ?_, hu, hwssp d hd⟩, ?_, ?_, ?_⟩
        · rw [hsws, List.append_assoc, ← hf1, ← hf2, ← hsp1]
        · rw [← hf1]
          simpa using hne
        · rw [← hf1]
          exact hw1
        · rw [← hf2]
          exact hrest1
    simp only [aliasTail, hws] at h
    cases hAS : stripPreCI "AS".toList s1 with
    | none =>
      simp only [hAS] at h
      exact hfall h
    | some s2 =>
      simp only [hAS] at h
      cases hws2 : skipWs1 s2 with
      | none =>
        simp only [hws2] at h
        exact hfall h
      | some s3 =>
        simp only [hws2] at h
        split at h
        · exact hfall h
        · rename_i hne3
          simp only [Option.some.injEq] at h
          have h1 : (takeWordRun s3).1 = ref := by rw [h]
          have h2 : (takeWordRun s3).2 = rest := by rw [h]
          obtain ⟨mAS, hs1, -⟩ := stripPreCI_decomp "AS".toList s1 s2 hAS
          obtain ⟨ws2, hs2, hws2ne, hws2sp⟩ := skipWs1_decomp s2 s3 hws2
          obtain ⟨hsp3, hw3, hrest3⟩ := takeWordRun_split s3
          obtain ⟨w0, d, hu, hd⟩ := last_decomp ws2 hws2ne
          refine ⟨⟨ws ++ mAS ++ ws2, ws ++ mAS ++ w0, d, ?_, ?_, hws2sp d hd⟩,
            ?_, ?_, ?_⟩
          · rw [hsws, hs1, hs2]
            rw [show s3 = ref ++ rest by rw [← h1, ← h2, ← hsp3]]
            simp [List.append_assoc]
          · rw [hu]
            simp [List.append_assoc]
          · rw [← h1]
            simpa using hne3
          · rw [← h1]
            exact hw3
          · rw [← h2]
            exact hrest3

theorem CaptureShape_lift (pre s ref rest : List Char)
    (h : CaptureShape s ref rest) : CaptureShape (pre ++ s) ref rest := by
  obtain ⟨⟨u, u0, d, hs, hu, hd⟩, hne, hw, hr⟩ := h
  refine ⟨⟨pre ++ u, pre ++ u0, d, ?_, ?_, hd⟩, hne, hw, hr⟩
  · rw [hs]
    simp [List.append_assoc]
  · rw [hu]
    simp [List.append_assoc]

theorem aliasAt_shape (prev : Option Char) (s ref rest : List Char)
    (h : aliasAt prev s = some (ref, rest)) : CaptureShape s ref rest := by
  unfold aliasAt at h
  split at h
  swap
  · cases h
  have hFJ : ∃ r1 mFJ, s = mFJ ++ r1 ∧
      (match stripPreCI "FROM".toList s with
       | some r => some r
       | none => stripPreCI "JOIN".toList s) = some r1 ∨
      (match stripPreCI "FROM".toList s with
       | some r => some r
       | none => stripPreCI "JOIN".toList s) = none := by
    cases hF : stripPreCI "FROM".toList s with
    | some r1 =>
      obtain ⟨m, hm, -⟩ := stripPreCI_decomp _ s r1 hF
      exact ⟨r1, m, Or.inl ⟨hm, by simp [hF]⟩⟩
    | none =>
      cases hJ : stripPreCI "JOIN".toList s with
      | some r1 =>
        obtain ⟨m, hm, -⟩ := stripPreCI_decomp _ s r1 hJ
        exact ⟨r1, m, Or.inl ⟨hm, by simp [hF, hJ]⟩⟩
      | none => exact ⟨[], [], Or.inr (by simp [hF, hJ])⟩
  obtain ⟨r1, mFJ, hFJ⟩ := hFJ
  rcases hFJ with ⟨hsm, heq⟩ | heq
  · rw [heq] at h
    cases hws1 : skipWs1 r1 with
    | none => simp only [hws1] at h; simp at h
    | some s2 =>
      simp only [hws1] at h
      obtain ⟨ws1, hr1, -, -⟩ := skipWs1_decomp r1 s2 hws1
      cases hP : stripPreCI "PROPERTIES".toList s2 with
      | none => simp only [hP] at h; simp at h
      | some s3 =>
        simp only [hP] at h
        obtain ⟨mP, hs2, -⟩ := stripPreCI_decomp _ s2 s3 hP
        have c3 := aliasTail_shape s3 ref rest h
        have c2 : CaptureShape s2 ref rest := by
          rw [hs2]; exact CaptureShape_lift mP s3 ref rest c3
        have c1 : CaptureShape r1 ref rest := by
          rw [hr1]; exact CaptureShape_lift ws1 s2 ref rest c2
        rw [hsm]
        exact CaptureShape_lift mFJ r1 ref rest c1
  · rw [heq] at h
    cases h

theorem findAliasAux_shape :
    ∀ (s : List Char) prev ref rest, findAliasAux prev s = some (ref, rest) →
    CaptureShape s ref rest := by
  intro s
  induction s with
  | nil => intro prev ref rest h; simp [findAliasAux] at h
  | cons c t ih =>
    intro prev ref rest h
    simp only [findAliasAux] at h
    cases hA : aliasAt prev (c :: t) with
    | some x =>
      rw [hA] at h
      simp only [Option.some.injEq] at h
      rw [h] at hA
      exact aliasAt_shape prev (c :: t) ref rest hA
    | none =>
      rw [hA] at h
      have := ih (some c) ref rest h
      have h2 := CaptureShape_lift [c] t ref rest this
      simpa using h2

theorem tableRef_word (s : List Char) :
    tableRef s ≠ [] ∧ ∀ c ∈ tableRef s, isWordChar c = true := by
  unfold tableRef
  cases hF : findAliasAux none s with
  | none =>
    constructor
    · decide
    · intro c hc
      fin_cases hc <;> decide
  | some x =>
    obtain ⟨-, hne, hw, -⟩ := findAliasAux_shape s none x.1 x.2 (by rw [hF])
    exact ⟨hne, hw⟩

theorem tableRef_mem_or_props (s : List Char) :
    tableRef s = "Properties".toList ∨
    lowS (tableRef s) ∈ wordsOf (lowS s) := by
  unfold tableRef
  cases hF : findAliasAux none s with
  | none => exact Or.inl rfl
  | some x =>
    obtain ⟨⟨u, u0, d, hs, hu, hd⟩, hne, hw, hr⟩ :=
      findAliasAux_shape s none x.1 x.2 (by rw [hF])
    refine Or.inr ?_
    apply mem_wordsOf_of_low_occurrence (lowS x.1) ?_ ?_ s u x.1 (x.2) hs rfl
    · exact Or.inr ⟨u0, d, hu, pySpace_not_word d hd⟩
    · exact hr
    · intro hnil
      have := congrArg List.length hnil
      simp [lowS] at this
      exact hne this
    · intro c hc
      obtain ⟨e, he, hce⟩ := List.mem_map.mp hc
      rw [← hce, isWordChar_lowC]
      exact hw e he

/-! ## Position and splice lemmas -/

theorem findWordCI_split (w s : List Char) (i : Nat)
    (h : findWordCI w s = some i) :
    ∃ a m b, s = a ++ m ++ b ∧ a.length = i ∧ m.length = w.length ∧
      lowS m = lowS w ∧
      (a = [] ∨ ∃ a0 d, a = a0 ++ [d] ∧ isWordChar d = false) ∧
      bdryA b = true := by
  obtain ⟨a, m, b, hs, hlen, hlow, hbd, hba⟩ :=
    findWordCIAux_sound w s none 0 i h
  refine ⟨a, m, b, hs, by omega, ?_, hlow, ?_, hba⟩
  · have := congrArg List.length hlow
    simpa [lowS] using this
  · rcases hbd with ⟨ha, -⟩ | h2
    · exact Or.inl ha
    · exact Or.inr h2

theorem take_drop_concat (x y : List Char) (n : Nat) (h : x.length = n) :
    (x ++ y).take n = x ∧ (x ++ y).drop n = y := by
  subst h
  exact ⟨List.take_left x y, List.drop_left x y⟩

theorem terminalInsertPos_spec (s : List Char) :
    terminalInsertPos s = s.length ∨
    ∃ w, w ∈ termWords ∧ findWordCI w s = some (terminalInsertPos s) := by
  have main : ∀ (l : List (List Char)), (∀ w ∈ l, w ∈ termWords) →
      ∀ acc, (acc = s.length ∨
        ∃ w, w ∈ termWords ∧ findWordCI w s = some acc) →
      (l.foldl (termFoldStep s) acc = s.length ∨
        ∃ w, w ∈ termWords ∧ findWordCI w s = some (l.foldl (termFoldStep s) acc)) := by
    intro l
    induction l with
    | nil => intro _ acc hacc; exact hacc
    | cons w l2 ih =>
      intro hsub acc hacc
      simp only [List.foldl_cons]
      apply ih (fun x hx => hsub x (by simp [hx]))
      unfold termFoldStep
      cases hf : findWordCI w s with
      | none => exact hacc
      | some i =>
        by_cases hlt : i < acc
        · simp only [if_pos hlt]
          exact Or.inr ⟨w, hsub w (by simp), hf⟩
        · simp only [if_neg hlt]
          exact hacc
  exact main termWords (fun w hw => hw) s.length (Or.inl rfl)

theorem wordsOf_lowS_sep (x y : List Char) (c : Char)
    (hc : isWordChar c = false) :
    wordsOf (lowS (x ++ c :: y)) = wordsOf (lowS x) ++ wordsOf (lowS y) := by
  have hmap : lowS (x ++ c :: y) = lowS x ++ lowC c :: lowS y := by simp [lowS]
  rw [hmap, wordsOf_append_break _ _ _ (by rw [isWordChar_lowC]; exact hc)]

theorem wordsOf_lowS_cons_not (c : Char) (x : List Char)
    (hc : isWordChar c = false) :
    wordsOf (lowS (c :: x)) = wordsOf (lowS x) := by
  have hmap : lowS (c :: x) = lowC c :: lowS x := by simp [lowS]
  rw [hmap, wordsOf_cons_not _ _ (by rw [isWordChar_lowC]; exact hc)]

theorem wordsOf_lowS_run (ref : List Char) (href : ref ≠ [])
    (hrefW : ∀ c ∈ ref, isWordChar c = true) :
    wordsOf (lowS ref) = [lowS ref] := by
  apply wordsOf_all_word
  · intro hx
    apply href
    have := congrArg List.length hx
    simpa [lowS] using this
  · intro c hc
    obtain ⟨e, he, hce⟩ := List.mem_map.mp hc
    rw [← hce, isWordChar_lowC]
    exact hrefW e he

theorem wordsOf_lowS_splice (A B ref num nd : List Char)
    (href : ref ≠ []) (hrefW : ∀ c ∈ ref, isWordChar c = true)
    (hnum : wordsOf (lowS num) = [nd]) :
    wordsOf (lowS (A ++ (' ' :: (ref ++ ".owner_id = ".toList ++ num ++ " AND ".toList)) ++ B)) =
      wordsOf (lowS A) ++
        lowS ref :: "owner_id".toList :: nd :: "and".toList :: wordsOf (lowS B) := by
  have ht1 : ".owner_id = ".toList =
      '.' :: ("owner_id".toList ++ ' ' :: '=' :: ' ' :: []) := rfl
  have ht2 : " AND ".toList = ' ' :: ("AND".toList ++ [' ']) := rfl
  rw [ht1, ht2]
  rw [show A ++ (' ' :: (ref ++ ('.' :: ("owner_id".toList ++ ' ' :: '=' :: ' ' :: [])) ++ num ++ (' ' :: ("AND".toList ++ [' '])))) ++ B =
      A ++ ' ' :: (ref ++ '.' :: ("owner_id".toList ++ ' ' :: ('=' :: ' ' :: (num ++ ' ' :: ("AND".toList ++ ' ' :: B))))) from by
    simp [List.append_assoc]]
  rw [wordsOf_lowS_sep A _ ' ' (by decide)]
  rw [wordsOf_lowS_sep ref _ '.' (by decide)]
  rw [wordsOf_lowS_run ref href hrefW]
  rw [wordsOf_lowS_sep ("owner_id".toList) _ ' ' (by decide)]
  rw [show wordsOf (lowS "owner_id".toList) = ["owner_id".toList] from by decide]
  rw [wordsOf_lowS_cons_not '=' _ (by decide)]
  rw [wordsOf_lowS_cons_not ' ' _ (by decide)]
  rw [wordsOf_lowS_sep num _ ' ' (by decide), hnum]
  rw [wordsOf_lowS_sep ("AND".toList) _ ' ' (by decide)]
  rw [show wordsOf (lowS "AND".toList) = ["and".toList] from by decide]
  simp

theorem wordsOf_lowS_insertWhere (A B ref num nd : List Char)
    (href : ref ≠ []) (hrefW : ∀ c ∈ ref, isWordChar c = true)
    (hnum : wordsOf (lowS num) = [nd]) :
    wordsOf (lowS (A ++ " WHERE ".toList ++ (ref ++ ".owner_id = ".toList ++ num) ++ (' ' :: B))) =
      wordsOf (lowS A) ++
        "where".toList :: lowS ref :: "owner_id".toList :: nd :: wordsOf (lowS B) := by
  have ht1 : ".owner_id = ".toList =
      '.' :: ("owner_id".toList ++ ' ' :: '=' :: ' ' :: []) := rfl
  have ht3 : " WHERE ".toList = ' ' :: ("WHERE".toList ++ [' ']) := rfl
  rw [ht1, ht3]
  rw [show A ++ (' ' :: ("WHERE".toList ++ [' '])) ++ (ref ++ ('.' :: ("owner_id".toList ++ ' ' :: '=' :: ' ' :: [])) ++ num) ++ (' ' :: B) =
      A ++ ' ' :: ("WHERE".toList ++ ' ' :: (ref ++ '.' :: ("owner_id".toList ++ ' ' :: ('=' :: ' ' :: (num ++ ' ' :: B))))) from by
    simp [List.append_assoc]]
  rw [wordsOf_lowS_sep A _ ' ' (by decide)]
  rw [wordsOf_lowS_sep ("WHERE".toList) _ ' ' (by decide)]
  rw [show wordsOf (lowS "WHERE".toList) = ["where".toList] from by decide]
  rw [wordsOf_lowS_sep ref _ '.' (by decide)]
  rw [wordsOf_lowS_run ref href hrefW]
  rw [wordsOf_lowS_sep ("owner_id".toList) _ ' ' (by decide)]
  rw [show wordsOf (lowS "owner_id".toList) = ["owner_id".toList] from by decide]
  rw [wordsOf_lowS_cons_not '=' _ (by decide)]
  rw [wordsOf_lowS_cons_not ' ' _ (by decide)]
  rw [wordsOf_lowS_sep num _ ' ' (by decide), hnum]
  simp

theorem wordsOf_concat_bdry (A b : List Char) (hb : bdryA b = true) :
    wordsOf (lowS (A ++ b)) = wordsOf (lowS A) ++ wordsOf (lowS b) := by
  cases b with
  | nil => simp [lowS, wordsOf]
  | cons e b2 =>
    have he : isWordChar e = false := by simpa [bdryA] using hb
    rw [wordsOf_lowS_sep A b2 e he, wordsOf_lowS_cons_not e b2 he]

theorem validate_query_true_no_dml (sql : List Char)
    (h : (validate_query sql).1 = true) :
    ∀ w ∈ DML_WORDS, hasWordCI w (upS sql) = false := by
  intro w hw
  unfold validate_query at h
  cases hf : DML_WORDS.find? (fun w => hasWordCI w (upS sql)) with
  | some x => rw [hf] at h; simp at h
  | none =>
    have := List.find?_eq_none.mp hf w hw
    simpa using this

theorem DML_facts : ∀ w ∈ DML_WORDS, w ≠ [] ∧
    (∀ c ∈ w, isWordChar c = true) ∧
    lowS w ≠ "and".toList ∧ lowS w ≠ "owner_id".toList ∧
    lowS w ≠ "where".toList ∧ lowS w ≠ "properties".toList ∧
    97 ≤ ((lowS w).headD ' ').toNat ∧ ((lowS w).headD ' ').toNat ≤ 122 := by
  decide

theorem rbac_output_facts (sql : List Char) (ctx : UserContext) (k : Int)
    (hrole : lowS ctx.role = "owner".toList) (hid : ctx.owner_id = some k)
    (href : referencesProperties (pyStripSqlEnd sql) = true)
    (hval : (validate_query sql).1 = true) :
    containsSub (ownerCond (tableRef (pyStripSqlEnd sql)) k) (apply_rbac sql ctx) = true ∧
    ∀ w ∈ DML_WORDS, hasWordCI w (upS (apply_rbac sql ctx)) = false := by
  have hno : ∀ w ∈ DML_WORDS, lowS w ∉ wordsOf (lowS (pyStripSqlEnd sql)) := by
    intro w hw hmem
    obtain ⟨hwne, hwall, -⟩ := DML_facts w hw
    have hfalse := validate_query_true_no_dml sql hval w hw
    rw [wordsOf_lowS_stripSqlEnd] at hmem
    have htrue : hasWordCI w (upS sql) = true := by
      rw [hasWordCI_iff w (upS sql) hwne hwall, lowS_upS]
      exact hmem
    rw [htrue] at hfalse
    cases hfalse
  have hrefw := tableRef_word (pyStripSqlEnd sql)
  have hrefmem := tableRef_mem_or_props (pyStripSqlEnd sql)
  have hnum := wordsOf_intStr k
  have hker : ∀ w ∈ DML_WORDS, ∀ out : List Char,
      lowS w ∉ wordsOf (lowS out) → hasWordCI w (upS out) = false := by
    intro w hw out hmem
    obtain ⟨hwne, hwall, -⟩ := DML_facts w hw
    rw [Bool.eq_false_iff]
    intro htrue
    rw [hasWordCI_iff w (upS out) hwne hwall, lowS_upS] at htrue
    exact hmem htrue
  have hmid : ∀ w ∈ DML_WORDS,
      lowS w ≠ lowS (tableRef (pyStripSqlEnd sql)) ∧
      lowS w ≠ "owner_id".toList ∧ lowS w ≠ natStr k.natAbs ∧
      lowS w ≠ "and".toList ∧ lowS w ≠ "where".toList := by
    intro w hw
    obtain ⟨-, -, hand, hoid, hwhere, hprops, hh1, hh2⟩ := DML_facts w hw
    refine ⟨?_, hoid, ?_, hand, hwhere⟩
    · intro heq
      rcases hrefmem with hp | hmem2
      · rw [hp] at heq
        have : lowS "Properties".toList = "properties".toList := by decide
        rw [this] at heq
        exact hprops heq
      · rw [← heq] at hmem2
        exact hno w hw hmem2
    · intro heq
      obtain ⟨c0, cr, hns, hd1, hd2⟩ := natStr_head_digit k.natAbs
      rw [heq, hns] at hh1 hh2
      simp [List.headD] at hh1 hh2
      omega
  cases hW : findWordCI "WHERE".toList (pyStripSqlEnd sql) with
  | some i =>
    have hout : apply_rbac sql ctx =
        (pyStripSqlEnd sql).take (i + 5) ++
          (' ' :: (ownerCond (tableRef (pyStripSqlEnd sql)) k ++ " AND ".toList)) ++
          (pyStripSqlEnd sql).drop (i + 5) := by
      simp only [apply_rbac, hrole, hid, href, hW, if_true]
    obtain ⟨a, m, b, hs, hal, hml, hmlow, habd, hbbd⟩ :=
      findWordCI_split "WHERE".toList (pyStripSqlEnd sql) i hW
    have hm5 : m.length = 5 := by rw [hml]; rfl
    have hs2 : pyStripSqlEnd sql = (a ++ m) ++ b := by
      rw [hs, List.append_assoc]
    have htd := take_drop_concat (a ++ m) b (i + 5) (by simp [hal, hm5])
    have htake : (pyStripSqlEnd sql).take (i + 5) = a ++ m := by
      rw [hs2]; exact htd.1
    have hdrop : (pyStripSqlEnd sql).drop (i + 5) = b := by
      rw [hs2]; exact htd.2
    rw [hout, htake, hdrop]
    have hsplitw : wordsOf (lowS (pyStripSqlEnd sql)) =
        wordsOf (lowS (a ++ m)) ++ wordsOf (lowS b) := by
      rw [hs2]
      exact wordsOf_concat_bdry (a ++ m) b hbbd
    constructor
    · rw [show (a ++ m) ++ (' ' :: (ownerCond (tableRef (pyStripSqlEnd sql)) k ++ " AND ".toList)) ++ b =
          ((a ++ m) ++ [' ']) ++ ownerCond (tableRef (pyStripSqlEnd sql)) k ++ (" AND ".toList ++ b) from by
        simp [List.append_assoc]]
      exact containsSub_mid _ _ _
    · intro w hw
      apply hker w hw
      intro hmem
      simp only [ownerCond] at hmem
      rw [wordsOf_lowS_splice (a ++ m) b (tableRef (pyStripSqlEnd sql))
        (intStr k) (natStr k.natAbs) hrefw.1 hrefw.2 hnum] at hmem
      obtain ⟨hne_ref, hne_oid, hne_nd, hne_and, -⟩ := hmid w hw
      rcases List.mem_append.mp hmem with h1 | h2
      · exact hno w hw (by rw [hsplitw]; exact List.mem_append.mpr (Or.inl h1))
      · rcases List.mem_cons.mp h2 with hc | h2
        · exact hne_ref hc
        · rcases List.mem_cons.mp h2 with hc | h2
          · exact hne_oid hc
          · rcases List.mem_cons.mp h2 with hc | h2
            · exact hne_nd hc
            · rcases List.mem_cons.mp h2 with hc | h2
              · exact hne_and hc
              · exact hno w hw (by rw [hsplitw]; exact List.mem_append.mpr (Or.inr h2))
  | none =>
    have hout : apply_rbac sql ctx =
        pyStripR isPySpace ((pyStripSqlEnd sql).take (terminalInsertPos (pyStripSqlEnd sql))) ++
          " WHERE ".toList ++ ownerCond (tableRef (pyStripSqlEnd sql)) k ++
          (' ' :: (pyStripSqlEnd sql).drop (terminalInsertPos (pyStripSqlEnd sql))) := by
      simp only [apply_rbac, hrole, hid, href, hW, if_true]
    rw [hout]
    have hconc : ∀ A B : List Char,
        wordsOf (lowS A) ⊆ wordsOf (lowS (pyStripSqlEnd sql)) →
        wordsOf (lowS B) ⊆ wordsOf (lowS (pyStripSqlEnd sql)) →
        (containsSub (ownerCond (tableRef (pyStripSqlEnd sql)) k)
          (A ++ " WHERE ".toList ++ ownerCond (tableRef (pyStripSqlEnd sql)) k ++ (' ' :: B)) = true ∧
        ∀ w ∈ DML_WORDS, hasWordCI w (upS (A ++ " WHERE ".toList ++
          ownerCond (tableRef (pyStripSqlEnd sql)) k ++ (' ' :: B))) = false) := by
      intro A B hA hB
      constructor
      · rw [show A ++ " WHERE ".toList ++ ownerCond (tableRef (pyStripSqlEnd sql)) k ++ (' ' :: B) =
            (A ++ " WHERE ".toList) ++ ownerCond (tableRef (pyStripSqlEnd sql)) k ++ (' ' :: B) from by
          simp [List.append_assoc]]
        exact containsSub_mid _ _ _
      · intro w hw
        apply hker w hw
        intro hmem
        simp only [ownerCond] at hmem
        rw [wordsOf_lowS_insertWhere A B (tableRef (pyStripSqlEnd sql))
          (intStr k) (natStr k.natAbs) hrefw.1 hrefw.2 hnum] at hmem
        obtain ⟨hne_ref, hne_oid, hne_nd, hne_and, hne_where⟩ := hmid w hw
        rcases List.mem_append.mp hmem with h1 | h2
        · exact hno w hw (hA h1)
        · rcases List.mem_cons.mp h2 with hc | h2
          · exact hne_where hc
          · rcases List.mem_cons.mp h2 with hc | h2
            · exact hne_ref hc
            · rcases List.mem_cons.mp h2 with hc | h2
              · exact hne_oid hc
              · rcases List.mem_cons.mp h2 with hc | h2
                · exact hne_nd hc
                · exact hno w hw (hB h2)
    rcases terminalInsertPos_spec (pyStripSqlEnd sql) with hip | ⟨w2, -, hw2⟩
    · rw [hip, List.take_length, List.drop_length]
      apply hconc
      · rw [wordsOf_lowS_stripR isPySpace _ pySpace_not_word]
        exact fun x hx => hx
      · intro x hx
        simp [lowS, wordsOf] at hx
    · set ip := terminalInsertPos (pyStripSqlEnd sql) with hipdef
      obtain ⟨a, m, b, hs, hal, -, -, habd, -⟩ :=
        findWordCI_split w2 (pyStripSqlEnd sql) ip hw2
      have hs2 : pyStripSqlEnd sql = a ++ (m ++ b) := by
        rw [hs, List.append_assoc]
      have htd := take_drop_concat a (m ++ b) ip hal
      have htake : (pyStripSqlEnd sql).take ip = a := by
        conv_lhs => rw [hs2]
        exact htd.1
      have hdropp : (pyStripSqlEnd sql).drop ip = m ++ b := by
        conv_lhs => rw [hs2]
        exact htd.2
      rw [htake, hdropp]
      rcases habd with hanil | ⟨a0, d, had, hd⟩
      · apply hconc
        · subst hanil
          rw [wordsOf_lowS_stripR isPySpace _ pySpace_not_word]
          intro x hx
          simp [lowS, wordsOf] at hx
        · intro x hx
          rw [hs2, hanil, List.nil_append]
          exact hx
      · have hsep : wordsOf (lowS (pyStripSqlEnd sql)) =
            wordsOf (lowS a0) ++ wordsOf (lowS (m ++ b)) := by
          rw [hs2, had, List.append_assoc, List.singleton_append]
          exact wordsOf_lowS_sep a0 (m ++ b) d hd
        apply hconc
        · rw [wordsOf_lowS_stripR isPySpace _ pySpace_not_word, had]
          have : wordsOf (lowS (a0 ++ [d])) = wordsOf (lowS a0) := by
            have hmap : lowS (a0 ++ [d]) = lowS a0 ++ [lowC d] := by simp [lowS]
            rw [hmap]
            apply wordsOf_append_nonword
            intro c hc
            simp at hc
            rw [hc, isWordChar_lowC]
            exact hd
          rw [this, hsep]
          intro x hx
          exact List.mem_append.mpr (Or.inl hx)
        · rw [hsep]
          intro x hx
          exact List.mem_append.mpr (Or.inr hx)

/-! ## Claim theorems: security layer -/

/-- C2: for every request by a user with role owner and a set owner_id,
if the (stripped) SQL references the Properties table via FROM or JOIN,
the string rewritten by `apply_rbac` contains the predicate
`<ref>.owner_id = <owner_id>` (with `<ref>` the detected alias or the
bare table name), and, provided the input SQL passed `validate_query`,
the rewritten string contains no denylisted keyword as a
case-insensitive whole word. -/
theorem c2_owner_predicate_and_no_denylist (sql : List Char)
    (ctx : UserContext) (k : Int)
    (hrole : lowS ctx.role = "owner".toList) (hid : ctx.owner_id = some k)
    (href : referencesProperties (pyStripSqlEnd sql) = true)
    (hval : (validate_query sql).1 = true) :
    containsSub (ownerCond (tableRef (pyStripSqlEnd sql)) k)
      (apply_rbac sql ctx) = true ∧
    ∀ w ∈ DML_WORDS, hasWordCI w (upS (apply_rbac sql ctx)) = false :=
  rbac_output_facts sql ctx k hrole hid href hval

theorem c2_witness :
    lowS (ownerCtx 2).role = "owner".toList ∧
    (ownerCtx 2).owner_id = some 2 ∧
    referencesProperties (pyStripSqlEnd "SELECT * FROM Properties AS p;".toList) = true ∧
    (validate_query "SELECT * FROM Properties AS p;".toList).1 = true ∧
    (containsSub (ownerCond (tableRef (pyStripSqlEnd "SELECT * FROM Properties AS p;".toList)) 2)
      (apply_rbac "SELECT * FROM Properties AS p;".toList (ownerCtx 2)) = true ∧
    ∀ w ∈ DML_WORDS,
      hasWordCI w (upS (apply_rbac "SELECT * FROM Properties AS p;".toList (ownerCtx 2))) = false) :=
  ⟨by decide, by decide, by decide, by decide,
    c2_owner_predicate_and_no_denylist "SELECT * FROM Properties AS p;".toList
      (ownerCtx 2) 2 (by decide) (by decide) (by decide) (by decide)⟩

/-- C4: `validate_query` returns invalid, with a nonempty reason, for
every SQL string that contains (case-insensitively, as a whole word) one
of the ten denylisted keywords, or that matches one of the four
injection shapes; a single match suffices. -/
theorem c4_validate_query_rejects (sql : List Char)
    (h : (∃ w ∈ DML_WORDS, hasWordCI w (upS sql) = true) ∨
      hasSemiDrop (upS sql) = true ∨ hasDashDrop (upS sql) = true ∨
      hasBlockDrop (upS sql) = true ∨ hasUnionSelFrom (upS sql) = true) :
    (validate_query sql).1 = false ∧ (validate_query sql).2 ≠ [] := by
  unfold validate_query
  cases hf : DML_WORDS.find? (fun w => hasWordCI w (upS sql)) with
  | some w =>
    refine ⟨rfl, ?_⟩
    rw [show "Forbidden SQL operation detected: \\b".toList =
      'F' :: "orbidden SQL operation detected: \\b".toList from rfl]
    simp
  | none =>
    have hinj : (hasSemiDrop (upS sql) || hasDashDrop (upS sql) ||
        hasBlockDrop (upS sql) || hasUnionSelFrom (upS sql)) = true := by
      rcases h with ⟨w, hw, hww⟩ | h | h | h | h
      · have := List.find?_eq_none.mp hf w hw
        simp [hww] at this
      all_goals simp [h]
    rw [if_pos hinj]
    exact ⟨rfl, by decide⟩

theorem c4_witness :
    (∃ w ∈ DML_WORDS,
      hasWordCI w (upS "INSERT INTO Properties VALUES (1, 2)".toList) = true) ∧
    (validate_query "INSERT INTO Properties VALUES (1, 2)".toList).1 = false ∧
    (∃ w ∈ DML_WORDS,
      hasWordCI w (upS "DELETE FROM Properties WHERE property_id = 1".toList) = true) ∧
    (validate_query "DELETE FROM Properties WHERE property_id = 1".toList).1 = false ∧
    (∃ w ∈ DML_WORDS,
      hasWordCI w (upS "SELECT * FROM x; DROP TABLE y".toList) = true) ∧
    (validate_query "SELECT * FROM x; DROP TABLE y".toList).1 = false :=
  ⟨by decide,
   (c4_validate_query_rejects "INSERT INTO Properties VALUES (1, 2)".toList
     (Or.inl (by decide))).1,
   by decide,
   (c4_validate_query_rejects "DELETE FROM Properties WHERE property_id = 1".toList
     (Or.inl (by decide))).1,
   by decide,
   (c4_validate_query_rejects "SELECT * FROM x; DROP TABLE y".toList
     (Or.inl (by decide))).1⟩

/-- C5 counterexample: the query text "Compare LLC1 and LLC2" references
the owner identifier LLC2, which differs from the caller's own (LLC1),
yet `validate_query_intent` allows it, because the source only denies
when the caller's own identifier is absent from the text. -/
theorem c5_counterexample_mixed_owners :
    hasWordCI "LLC2".toList "Compare LLC1 and LLC2".toList = true ∧
    validate_query_intent "Compare LLC1 and LLC2".toList (ownerCtx 1) =
      (true, []) := by decide

/-- C5 (amended): for a caller with role owner,
`validate_query_intent` denies a request that references one of the
listed owner identifiers (LLC1..LLC5) whenever the caller's own
identifier does not occur (case-insensitively) as a substring of the
text, and allows a request in which the caller's own identifier does
occur and no forbidden system-wide term occurs. -/
theorem c5_owner_scope_amended (q : List Char) (ctx : UserContext)
    (hrole : lowS ctx.role = "owner".toList) :
    (ownerNamesHit q = true →
      containsSub (lowS ("LLC".toList ++ pyStrOptInt ctx.owner_id)) (lowS q) = false →
      validate_query_intent q ctx = (false, ownerOtherMsg ctx.owner_id)) ∧
    (containsSub (lowS ("LLC".toList ++ pyStrOptInt ctx.owner_id)) (lowS q) = true →
      forbiddenHit (lowS q) = false →
      validate_query_intent q ctx = (true, [])) := by
  have hnv : (lowS ctx.role = "viewer".toList) = False := by
    rw [hrole]
    exact eq_false (by decide)
  constructor
  · intro hhit hsub
    simp only [validate_query_intent, hnv, hrole, hhit, hsub]
    simp
  · intro hsub hforb
    simp only [validate_query_intent, hnv, hrole, hsub, hforb]
    simp

theorem c5_witness :
    lowS (ownerCtx 2).role = "owner".toList ∧
    ownerNamesHit "How many properties does LLC3 have?".toList = true ∧
    containsSub (lowS ("LLC".toList ++ pyStrOptInt (ownerCtx 2).owner_id))
      (lowS "How many properties does LLC3 have?".toList) = false ∧
    validate_query_intent "How many properties does LLC3 have?".toList (ownerCtx 2) =
      (false, ownerOtherMsg (ownerCtx 2).owner_id) ∧
    containsSub (lowS ("LLC".toList ++ pyStrOptInt (ownerCtx 1).owner_id))
      (lowS "What is the rent for LLC1?".toList) = true ∧
    forbiddenHit (lowS "What is the rent for LLC1?".toList) = false ∧
    validate_query_intent "What is the rent for LLC1?".toList (ownerCtx 1) =
      (true, []) :=
  ⟨by decide, by decide, by decide,
   (c5_owner_scope_amended "How many properties does LLC3 have?".toList
     (ownerCtx 2) (by decide)).1 (by decide) (by decide),
   by decide, by decide,
   (c5_owner_scope_amended "What is the rent for LLC1?".toList
     (ownerCtx 1) (by decide)).2 (by decide) (by decide)⟩

/-- C6 counterexample: for an owner context, a statement that does not
reference the Properties table is returned with its trailing semicolon
stripped, hence not completely unchanged. -/
theorem c6_counterexample_semicolon :
    apply_rbac "SELECT 1;".toList (ownerCtx 1) ≠ "SELECT 1;".toList := by
  decide

/-- C6 (amended): `apply_rbac` returns the SQL completely unchanged
whenever the role is not owner or owner_id is unset; when the caller is
an owner with a set owner_id but the statement does not reference the
Properties table via FROM or JOIN, it returns the SQL with only trailing
whitespace and semicolons stripped. -/
theorem c6_frame_amended :
    (∀ (sql : List Char) (ctx : UserContext),
      ¬(lowS ctx.role = "owner".toList ∧ ctx.owner_id ≠ none) →
      apply_rbac sql ctx = sql) ∧
    (∀ (sql : List Char) (ctx : UserContext) (k : Int),
      lowS ctx.role = "owner".toList → ctx.owner_id = some k →
      referencesProperties (pyStripSqlEnd sql) = false →
      apply_rbac sql ctx = pyStripSqlEnd sql) := by
  constructor
  · intro sql ctx h
    unfold apply_rbac
    split
    · rename_i hrole
      cases hid : ctx.owner_id with
      | none => rfl
      | some k => exact absurd ⟨hrole, by simp [hid]⟩ h
    · rfl
  · intro sql ctx k hrole hid href
    simp only [apply_rbac, hrole, hid, href]
    simp

theorem c6_witness :
    ¬(lowS adminCtx.role = "owner".toList ∧ adminCtx.owner_id ≠ none) ∧
    apply_rbac "SELECT 1;".toList adminCtx = "SELECT 1;".toList ∧
    lowS (ownerCtx 1).role = "owner".toList ∧
    (ownerCtx 1).owner_id = some 1 ∧
    referencesProperties (pyStripSqlEnd "SELECT 1;".toList) = false ∧
    apply_rbac "SELECT 1;".toList (ownerCtx 1) = pyStripSqlEnd "SELECT 1;".toList :=
  ⟨by decide, c6_frame_amended.1 "SELECT 1;".toList adminCtx (by decide),
   by decide, by decide, by decide,
   c6_frame_amended.2 "SELECT 1;".toList (ownerCtx 1) 1 (by decide) (by decide)
     (by decide)⟩

/-- C7: when `apply_rbac` rewrites, an existing WHERE gets the owner
predicate plus a conjunction spliced immediately after it; otherwise a
new WHERE clause is inserted immediately before the first terminal
clause keyword (GROUP BY, ORDER BY, LIMIT, OFFSET) or at the end; and
the rewrite of "SELECT * FROM Properties AS p;" for owner 2 contains
"WHERE p.owner_id = 2" with no semicolon anywhere in the result. -/
theorem c7_where_splice_and_insert :
    (∀ (sql : List Char) (ctx : UserContext) (k : Int) (i : Nat),
      lowS ctx.role = "owner".toList → ctx.owner_id = some k →
      referencesProperties (pyStripSqlEnd sql) = true →
      findWordCI "WHERE".toList (pyStripSqlEnd sql) = some i →
      apply_rbac sql ctx =
        (pyStripSqlEnd sql).take (i + 5) ++
          (' ' :: (ownerCond (tableRef (pyStripSqlEnd sql)) k ++ " AND ".toList)) ++
          (pyStripSqlEnd sql).drop (i + 5)) ∧
    (∀ (sql : List Char) (ctx : UserContext) (k : Int),
      lowS ctx.role = "owner".toList → ctx.owner_id = some k →
      referencesProperties (pyStripSqlEnd sql) = true →
      findWordCI "WHERE".toList (pyStripSqlEnd sql) = none →
      apply_rbac sql ctx =
        pyStripR isPySpace ((pyStripSqlEnd sql).take (terminalInsertPos (pyStripSqlEnd sql))) ++
          " WHERE ".toList ++ ownerCond (tableRef (pyStripSqlEnd sql)) k ++
          (' ' :: (pyStripSqlEnd sql).drop (terminalInsertPos (pyStripSqlEnd sql)))) ∧
    (apply_rbac "SELECT * FROM Properties AS p;".toList (ownerCtx 2) =
        "SELECT * FROM Properties AS p WHERE p.owner_id = 2 ".toList ∧
      containsSub "WHERE p.owner_id = 2".toList
        (apply_rbac "SELECT * FROM Properties AS p;".toList (ownerCtx 2)) = true ∧
      ';' ∉ apply_rbac "SELECT * FROM Properties AS p;".toList (ownerCtx 2)) := by
  refine ⟨?_, ?_, by decide⟩
  · intro sql ctx k i hrole hid href hW
    simp only [apply_rbac, hrole, hid, href, hW, if_true]
  · intro sql ctx k hrole hid href hW
    simp only [apply_rbac, hrole, hid, href, hW, if_true]

theorem c7_witness :
    lowS (ownerCtx 3).role = "owner".toList ∧
    (ownerCtx 3).owner_id = some 3 ∧
    referencesProperties (pyStripSqlEnd "SELECT * FROM Properties p WHERE p.is_active = 1;".toList) = true ∧
    findWordCI "WHERE".toList (pyStripSqlEnd "SELECT * FROM Properties p WHERE p.is_active = 1;".toList) = some 27 ∧
    apply_rbac "SELECT * FROM Properties p WHERE p.is_active = 1;".toList (ownerCtx 3) =
      (pyStripSqlEnd "SELECT * FROM Properties p WHERE p.is_active = 1;".toList).take (27 + 5) ++
        (' ' :: (ownerCond (tableRef (pyStripSqlEnd "SELECT * FROM Properties p WHERE p.is_active = 1;".toList)) 3 ++ " AND ".toList)) ++
        (pyStripSqlEnd "SELECT * FROM Properties p WHERE p.is_active = 1;".toList).drop (27 + 5) ∧
    findWordCI "WHERE".toList (pyStripSqlEnd "SELECT * FROM Properties AS p;".toList) = none ∧
    apply_rbac "SELECT * FROM Properties AS p;".toList (ownerCtx 2) =
      pyStripR isPySpace ((pyStripSqlEnd "SELECT * FROM Properties AS p;".toList).take
          (terminalInsertPos (pyStripSqlEnd "SELECT * FROM Properties AS p;".toList))) ++
        " WHERE ".toList ++
        ownerCond (tableRef (pyStripSqlEnd "SELECT * FROM Properties AS p;".toList)) 2 ++
        (' ' :: (pyStripSqlEnd "SELECT * FROM Properties AS p;".toList).drop
          (terminalInsertPos (pyStripSqlEnd "SELECT * FROM Properties AS p;".toList))) :=
  ⟨by decide, by decide, by decide, by decide,
   c7_where_splice_and_insert.1 "SELECT * FROM Properties p WHERE p.is_active = 1;".toList
     (ownerCtx 3) 3 27 (by decide) (by decide) (by decide) (by decide),
   by decide,
   c7_where_splice_and_insert.2.1 "SELECT * FROM Properties AS p;".toList
     (ownerCtx 2) 2 (by decide) (by decide) (by decide) (by decide)⟩

/-- C9: `numbers_match` (modelled from the spec, the source module being
absent from `src/`) returns true when both values are within the
absolute near-zero epsilon 0.01, and otherwise compares the absolute
difference against `tolerance * max(|a|, |b|)`; in particular
`numbers_match 100 101 = true`, `numbers_match 100 103 = false`,
`numbers_match 0 0.005 = true`, `numbers_match 0 0.02 = false` at the
default tolerance 0.02. -/
theorem c9_numbers_match :
    numbers_match 100 101 (2/100) = true ∧
    numbers_match 100 103 (2/100) = false ∧
    numbers_match 0 (5/1000) (2/100) = true ∧
    numbers_match 0 (2/100) (2/100) = false ∧
    ∀ a b tol : ℚ, (numbers_match a b tol = true ↔
      ((|a| ≤ 1/100 ∧ |b| ≤ 1/100) ∨
        (¬(|a| ≤ 1/100 ∧ |b| ≤ 1/100) ∧ |a - b| ≤ tol * max |a| |b|))) := by
  refine ⟨?_, ?_, ?_, ?_, ?_⟩
  · unfold numbers_match
    rw [if_neg (by norm_num), decide_eq_true_eq]
    norm_num
  · unfold numbers_match
    rw [if_neg (by norm_num)]
    rw [decide_eq_false_iff_not]
    norm_num
  · unfold numbers_match
    rw [if_pos ⟨by norm_num, by rw [abs_of_nonneg (by norm_num)]; norm_num⟩]
  · unfold numbers_match
    rw [if_neg (by rw [abs_of_nonneg (by norm_num : (0:ℚ) ≤ 2/100)]; norm_num)]
    rw [decide_eq_false_iff_not]
    rw [abs_of_nonpos (by norm_num : (0:ℚ) - 2/100 ≤ 0)]
    rw [abs_of_nonneg (by norm_num : (0:ℚ) ≤ 2/100)]
    norm_num
  · intro a b tol
    unfold numbers_match
    split
    · rename_i hz
      constructor
      · intro _
        exact Or.inl hz
      · intro _
        rfl
    · rename_i hz
      rw [decide_eq_true_eq]
      constructor
      · intro h
        exact Or.inr ⟨hz, h⟩
      · intro h
        rcases h with h | h
        · exact absurd h hz
        · exact h.2

/-! ## Orchestrator lemmas -/

/-- The terminal phase is absorbing for any amount of fuel. -/
theorem runAux_finished (o : Oracles) (mr : Nat) :
    ∀ fuel st, runAux o mr fuel (Phase.finished, st) = .ok (Phase.finished, st)
  | 0, _ => rfl
  | _ + 1, _ => by simp [runAux]

/-- Python truthiness of a present, nonempty string. -/
theorem pyTruthy_some_ne_nil (x : List Char) (hx : x ≠ []) :
    pyTruthy (some x) = true := by
  cases x with
  | nil => exact absurd rfl hx
  | cons c t => rfl

/-- One-step unfolding of `runAux` at a non-terminal phase. -/
theorem runAux_succ (o : Oracles) (mr fuel : Nat) (ph : Phase) (st : AgentSt)
    (hph : ph ≠ Phase.finished) :
    runAux o mr (fuel + 1) (ph, st) =
      (match stepPhase o mr (ph, st) with
       | .error e => .error e
       | .ok q => runAux o mr fuel q) := by
  simp only [runAux]
  rw [if_neg hph]

/-- Every step of the graph preserves the retry-budget invariant. -/
theorem stepPhase_retryInv (o : Oracles) (mr : Nat) (p q : Phase × AgentSt)
    (hp : RetryInv mr p) (hnf : p.1 ≠ Phase.finished)
    (hstep : stepPhase o mr p = .ok q) : RetryInv mr q := by
  obtain ⟨ph, st⟩ := p
  obtain ⟨h1, h2, h3⟩ := hp
  have h4 := h2 hnf
  cases ph with
  | generateSql =>
    simp only [stepPhase] at hstep
    split at hstep
    · cases hstep
      exact ⟨Nat.le_of_lt h4.1, fun _ => ⟨h4.1, h4.2⟩,
        fun hf => absurd (h4.2.symm.trans hf) (by decide)⟩
    · split at hstep
      · cases hstep
        exact ⟨Nat.le_of_lt h4.1, fun _ => ⟨h4.1, h4.2⟩,
          fun hf => absurd (h4.2.symm.trans hf) (by decide)⟩
      · split at hstep
        · exact Except.noConfusion hstep
        · cases hstep
          exact ⟨Nat.le_of_lt h4.1, fun _ => ⟨h4.1, h4.2⟩,
            fun hf => absurd (h4.2.symm.trans hf) (by decide)⟩
  | validateSql =>
    simp only [stepPhase] at hstep
    cases hstep
    split
    · exact ⟨Nat.le_of_lt h4.1, fun _ => ⟨h4.1, h4.2⟩,
        fun hf => absurd (h4.2.symm.trans hf) (by decide)⟩
    · exact ⟨Nat.le_of_lt h4.1, fun _ => ⟨h4.1, h4.2⟩,
        fun hf => absurd (h4.2.symm.trans hf) (by decide)⟩
  | executeSql =>
    simp only [stepPhase] at hstep
    split at hstep
    · exact Except.noConfusion hstep
    · cases hstep
      split
      · split
        · exact ⟨Nat.le_of_lt h4.1, fun _ => ⟨h4.1, h4.2⟩,
            fun hf => absurd (h4.2.symm.trans hf) (by decide)⟩
        · exact ⟨Nat.le_of_lt h4.1, fun _ => ⟨h4.1, h4.2⟩,
            fun hf => absurd (h4.2.symm.trans hf) (by decide)⟩
      · split
        · exact ⟨Nat.le_of_lt h4.1, fun _ => ⟨h4.1, h4.2⟩,
            fun hf => absurd (h4.2.symm.trans hf) (by decide)⟩
        · exact ⟨Nat.le_of_lt h4.1, fun _ => ⟨h4.1, h4.2⟩,
            fun hf => absurd (h4.2.symm.trans hf) (by decide)⟩
  | handleError =>
    simp only [stepPhase] at hstep
    split at hstep
    · cases hstep
      rename_i hlt
      exact ⟨Nat.le_of_lt hlt, fun _ => ⟨hlt, h4.2⟩,
        fun hf => absurd (h4.2.symm.trans hf) (by decide)⟩
    · cases hstep
      rename_i hlt
      exact ⟨Nat.succ_le_of_lt h4.1, fun hn => absurd rfl hn,
        fun _ => Nat.le_antisymm (Nat.succ_le_of_lt h4.1) (Nat.not_lt.mp hlt)⟩
  | generateAnswer =>
    simp only [stepPhase] at hstep
    split at hstep
    · exact Except.noConfusion hstep
    · cases hstep
      exact ⟨Nat.le_of_lt h4.1, fun hn => absurd rfl hn,
        fun hf => absurd (h4.2.symm.trans hf) (by decide)⟩
  | finished => exact absurd rfl hnf

/-- The retry-budget invariant holds at every reachable configuration. -/
theorem reaches_retryInv (o : Oracles) (mr : Nat) (init : Phase × AgentSt)
    (hinit : RetryInv mr init) {p : Phase × AgentSt}
    (h : Reaches o mr init p) : RetryInv mr p := by
  induction h with
  | refl => exact hinit
  | step hr hnf hs ih => exact stepPhase_retryInv o mr _ _ ih hnf hs

/-- The two possible results of the conversational classifier. -/
theorem is_data_query_cases (q : List Char) :
    is_data_query q = (false, cannedCapabilityResponse) ∨
    is_data_query q = (true, ([] : List Char)) := by
  simp only [is_data_query]
  split
  · exact Or.inl rfl
  · exact Or.inr rfl

/-- The five possible results of the intent authorizer. -/
theorem intent_result_cases (q : List Char) (ctx : UserContext) :
    validate_query_intent q ctx = (false, viewerSensitiveMsg) ∨
    validate_query_intent q ctx = (false, viewerOwnerMsg) ∨
    validate_query_intent q ctx = (false, ownerOtherMsg ctx.owner_id) ∨
    validate_query_intent q ctx = (false, ownerForbiddenMsg) ∨
    validate_query_intent q ctx = (true, ([] : List Char)) := by
  simp only [validate_query_intent]
  split_ifs <;> simp

/-- Each denial message of the intent authorizer is nonempty. -/
theorem ownerOtherMsg_ne_nil (oid : Option Int) : ownerOtherMsg oid ≠ [] := by
  unfold ownerOtherMsg
  intro hc
  rw [List.append_eq_nil, List.append_eq_nil, List.append_eq_nil,
    List.append_eq_nil] at hc
  exact absurd hc.1.1.1.1 (by decide)

/-- A denied intent comes with a nonempty denial reason. -/
theorem intent_false_ne_nil (q : List Char) (ctx : UserContext)
    (h : (validate_query_intent q ctx).1 = false) :
    (validate_query_intent q ctx).2 ≠ [] := by
  rcases intent_result_cases q ctx with hc | hc | hc | hc | hc <;> rw [hc]
  · exact by decide
  · exact by decide
  · exact ownerOtherMsg_ne_nil ctx.owner_id
  · exact by decide
  · rw [hc] at h; exact absurd h (by decide)

/-- C3 counterexample: the claimed invariant `retry_count ≤ max_retries`
fails when the agent is constructed with `max_retries = 0`: a single
validation failure routes through `_handle_error_node`, which
unconditionally increments `retry_count` to 1 before `_error_router`
checks the budget, so the returned response reports `retry_count = 1 > 0`. -/
theorem c3_counterexample :
    (queryRun (oracleConst "DROP TABLE X".toList) 0 false
        "How many units are there?".toList adminCtx).retry_count = 1 ∧
    ¬ ((queryRun (oracleConst "DROP TABLE X".toList) 0 false
        "How many units are there?".toList adminCtx).retry_count ≤ 0) := by
  decide

/-- C3 (amended: the agent must be constructed with `1 ≤ max_retries`,
as every front end of the repository does): along every reachable
configuration of a `query` run, `retry_count ≤ max_retries`, and the
exhaustion flag set by the error router implies
`retry_count = max_retries`; moreover, from any reached `handleError`
configuration whose increment exhausts the budget, the run terminates
with `retry_count = max_retries` and no further generator or executor
call. -/
theorem c3_retry_invariant_amended (o : Oracles) (mr : Nat) (uq : List Char)
    (ctx : UserContext) (hmr : 1 ≤ mr) :
    (∀ p : Phase × AgentSt,
        Reaches o mr (Phase.generateSql, initSt uq ctx) p →
        p.2.retry_count ≤ mr ∧ (p.2.failedRoute = true → p.2.retry_count = mr))
  ∧ (∀ (st : AgentSt) (fuel : Nat),
        Reaches o mr (Phase.generateSql, initSt uq ctx) (Phase.handleError, st) →
        ¬ st.retry_count + 1 < mr →
        ∃ st2 : AgentSt,
          runAux o mr (fuel + 1) (Phase.handleError, st) =
            .ok (Phase.finished, st2) ∧
          st2.retry_count = mr ∧ st2.genCalls = st.genCalls ∧
          st2.execCalls = st.execCalls ∧ st2.failedRoute = true) := by
  have hinit : RetryInv mr (Phase.generateSql, initSt uq ctx) :=
    ⟨Nat.zero_le mr, fun _ => ⟨hmr, rfl⟩, fun hf => by simp [initSt] at hf⟩
  constructor
  · intro p hp
    have hi := reaches_retryInv o mr _ hinit hp
    exact ⟨hi.1, hi.2.2⟩
  · intro st fuel hreach hge
    have hi := reaches_retryInv o mr _ hinit hreach
    have hlt : st.retry_count < mr := (hi.2.1 (by simp)).1
    refine ⟨{ st with retry_count := st.retry_count + 1, failedRoute := true },
      ?_, ?_, rfl, rfl, rfl⟩
    · simp only [runAux]
      rw [if_neg (by decide)]
      have hstep : stepPhase o mr (Phase.handleError, st) =
          .ok (Phase.finished,
            { st with retry_count := st.retry_count + 1, failedRoute := true }) := by
        simp only [stepPhase]
        rw [if_neg hge]
      rw [hstep]
      exact runAux_finished o mr fuel _
    · exact Nat.le_antisymm (Nat.succ_le_of_lt hlt) (Nat.not_lt.mp hge)

/-- C3 witness: the amended invariant instantiated with budget 1 at the
initial configuration itself. -/
theorem c3_witness :
    (initSt "How many properties do I have?".toList (ownerCtx 1)).retry_count ≤ 1 ∧
    ((initSt "How many properties do I have?".toList (ownerCtx 1)).failedRoute = true →
      (initSt "How many properties do I have?".toList (ownerCtx 1)).retry_count = 1) :=
  (c3_retry_invariant_amended (oracleConst "SELECT 1".toList) 1
      "How many properties do I have?".toList (ownerCtx 1) (by decide)).1
    (Phase.generateSql, initSt "How many properties do I have?".toList (ownerCtx 1))
    Reaches.refl

/-- C1: refuted (code bug).  After a first attempt whose generated SQL
fails security validation, the retried attempt produces SQL that
`validate_query` accepts; `_validate_sql_node` then applies the RBAC
rewrite and appends nothing to `error_log`, but `_validation_router`
inspects the stale last `error_log` entry (still the earlier
"Security validation failed" message), so the run is routed to
`handleError` instead of `EXECUTE`: after 4 steps the agent sits at
`validateSql` holding SQL that validates, with the stale log entry
last; one more step applies `apply_rbac` yet lands in `handleError`,
and the executor is never called. -/
theorem c1_stale_security_log_blocks_execute :
    (exToOpt (runAux c1Oracle 3 4 (Phase.generateSql,
        initSt "How many units are there?".toList adminCtx))).map Prod.fst
      = some Phase.validateSql
  ∧ (exToOpt (runAux c1Oracle 3 4 (Phase.generateSql,
        initSt "How many units are there?".toList adminCtx))).map
        (fun p => p.2.sql_query)
      = some (some "SELECT * FROM Properties".toList)
  ∧ (validate_query "SELECT * FROM Properties".toList).1 = true
  ∧ (exToOpt (runAux c1Oracle 3 4 (Phase.generateSql,
        initSt "How many units are there?".toList adminCtx))).map
        (fun p => p.2.error_log.getLast?.map
          (fun m => (stripPre "Security validation".toList m).isSome))
      = some (some true)
  ∧ (exToOpt (runAux c1Oracle 3 5 (Phase.generateSql,
        initSt "How many units are there?".toList adminCtx))).map Prod.fst
      = some Phase.handleError
  ∧ (exToOpt (runAux c1Oracle 3 5 (Phase.generateSql,
        initSt "How many units are there?".toList adminCtx))).map
        (fun p => p.2.sql_query)
      = some (some (apply_rbac "SELECT * FROM Properties".toList adminCtx))
  ∧ (exToOpt (runAux c1Oracle 3 5 (Phase.generateSql,
        initSt "How many units are there?".toList adminCtx))).map
        (fun p => p.2.execCalls)
      = some 0 := by
  decide

/-- C8: when the graph run raises (an exception from the generator or
executor propagates out of `graph.invoke`), `query` returns the
`_handle_query_error` response: `success = false`, `retry_count = 0`,
no SQL, the category-specific friendly message chosen by the
quota/auth/network/database elif-chain over the error text, and the raw
technical detail present only when `DEBUG_MODE` is enabled. -/
theorem c8_upstream_exception (o : Oracles) (mr : Nat) (debug : Bool)
    (uq : List Char) (ctx : UserContext) (e : List Char)
    (h : runAux o mr (queryFuel mr) (Phase.generateSql, initSt uq ctx) =
      .error e) :
    queryRun o mr debug uq ctx = handleQueryError e debug ∧
    (queryRun o mr debug uq ctx).success = false ∧
    (queryRun o mr debug uq ctx).retry_count = 0 ∧
    (queryRun o mr debug uq ctx).sql_query = none ∧
    (queryRun o mr debug uq ctx).technical_details =
      (if debug then some e else none) ∧
    (queryRun o mr debug uq ctx).answer =
      (if isQuotaErr e then msgQuota
       else if isAuthErr e then msgAuth
       else if isNetworkErr e then msgNetwork
       else if isDatabaseErr e then msgDatabase
       else msgGeneric) := by
  have hq : queryRun o mr debug uq ctx = handleQueryError e debug := by
    unfold queryRun
    rw [h]
  refine ⟨hq, ?_, ?_, ?_, ?_, ?_⟩ <;> rw [hq]
  · rfl
  · rfl
  · rfl
  · rfl
  · simp only [handleQueryError]
    split_ifs <;> rfl

/-- C8 witness: a generator that raises "quota exceeded" on a data
query; the hypothesis (the run raising) is discharged by computation. -/
theorem c8_witness :
    queryRun (oracleRaise "quota exceeded".toList) 3 false
        "How many units are there?".toList adminCtx =
      handleQueryError "quota exceeded".toList false ∧
    (queryRun (oracleRaise "quota exceeded".toList) 3 false
        "How many units are there?".toList adminCtx).success = false ∧
    (queryRun (oracleRaise "quota exceeded".toList) 3 false
        "How many units are there?".toList adminCtx).retry_count = 0 ∧
    (queryRun (oracleRaise "quota exceeded".toList) 3 false
        "How many units are there?".toList adminCtx).sql_query = none ∧
    (queryRun (oracleRaise "quota exceeded".toList) 3 false
        "How many units are there?".toList adminCtx).technical_details =
      (if (false : Bool) then some "quota exceeded".toList else none) ∧
    (queryRun (oracleRaise "quota exceeded".toList) 3 false
        "How many units are there?".toList adminCtx).answer =
      (if isQuotaErr "quota exceeded".toList then msgQuota
       else if isAuthErr "quota exceeded".toList then msgAuth
       else if isNetworkErr "quota exceeded".toList then msgNetwork
       else if isDatabaseErr "quota exceeded".toList then msgDatabase
       else msgGeneric) :=
  c8_upstream_exception (oracleRaise "quota exceeded".toList) 3 false
    "How many units are there?".toList adminCtx "quota exceeded".toList
    (by rfl)

/-- C10: a request classified as conversational, or denied by the intent
authorizer, finishes the graph in one step: the canned response or the
denial reason becomes the final answer, so `query` returns
`success = true` (success is computed as the final answer being
present), `sql_query = None` and `retry_count = 0`, with no generator
and no executor call. -/
theorem c10_blocked (o : Oracles) (mr : Nat) (debug : Bool)
    (uq : List Char) (ctx : UserContext)
    (h : (is_data_query uq).1 = false ∨
         ((is_data_query uq).1 = true ∧
          (validate_query_intent uq ctx).1 = false)) :
    ∃ st : AgentSt,
      runAux o mr (queryFuel mr) (Phase.generateSql, initSt uq ctx) =
        .ok (Phase.finished, st) ∧
      queryRun o mr debug uq ctx = buildResponse st ∧
      st.genCalls = 0 ∧ st.execCalls = 0 ∧
      (buildResponse st).success = true ∧
      (buildResponse st).sql_query = none ∧
      (buildResponse st).retry_count = 0 ∧
      (buildResponse st).answer =
        (if (is_data_query uq).1 then (validate_query_intent uq ctx).2
         else (is_data_query uq).2) := by
  have hfuel : queryFuel mr = (5 * mr + 24) + 1 := by unfold queryFuel; omega
  rcases h with h1 | ⟨h1, h2⟩
  · have hsnd : (is_data_query uq).2 = cannedCapabilityResponse := by
      rcases is_data_query_cases uq with hc | hc
      · rw [hc]
      · rw [hc] at h1; exact absurd h1 (by decide)
    have hstep : stepPhase o mr (Phase.generateSql, initSt uq ctx) =
        .ok (Phase.finished,
          { initSt uq ctx with final_answer := some (is_data_query uq).2 }) := by
      simp only [stepPhase, initSt]
      rw [h1]
      simp only [Bool.not_false, Bool.and_true, decide_True, if_true]
      simp only [genRoute]
      rw [hsnd, pyTruthy_some_ne_nil cannedCapabilityResponse (by decide)]
      simp
    have hrun : runAux o mr (queryFuel mr) (Phase.generateSql, initSt uq ctx) =
        .ok (Phase.finished,
          { initSt uq ctx with final_answer := some (is_data_query uq).2 }) := by
      rw [hfuel, runAux_succ o mr _ _ _ (by simp), hstep]
      exact runAux_finished o mr _ _
    refine ⟨_, hrun, ?_, rfl, rfl, rfl, rfl, rfl, ?_⟩
    · unfold queryRun
      rw [hrun]
    · rw [h1]
      simp [buildResponse]
  · have hstep : stepPhase o mr (Phase.generateSql, initSt uq ctx) =
        .ok (Phase.finished,
          { initSt uq ctx with
            error_log := ["Authorization error: ".toList ++
              (validate_query_intent uq ctx).2],
            final_answer := some (validate_query_intent uq ctx).2 }) := by
      simp only [stepPhase, initSt]
      rw [h1, h2]
      simp only [Bool.not_true, Bool.and_false, Bool.not_false, if_false, if_true]
      simp only [genRoute]
      rw [pyTruthy_some_ne_nil _ (intent_false_ne_nil uq ctx h2)]
      simp
    have hrun : runAux o mr (queryFuel mr) (Phase.generateSql, initSt uq ctx) =
        .ok (Phase.finished,
          { initSt uq ctx with
            error_log := ["Authorization error: ".toList ++
              (validate_query_intent uq ctx).2],
            final_answer := some (validate_query_intent uq ctx).2 }) := by
      rw [hfuel, runAux_succ o mr _ _ _ (by simp), hstep]
      exact runAux_finished o mr _ _
    refine ⟨_, hrun, ?_, rfl, rfl, rfl, rfl, rfl, ?_⟩
    · unfold queryRun
      rw [hrun]
    · rw [h1]
      simp [buildResponse]

/-- C10 witness: the conversational query "Hello" with an arbitrary
oracle; the classification hypothesis is discharged by computation. -/
theorem c10_witness :
    ∃ st : AgentSt,
      runAux (oracleConst "SELECT 1".toList) 3 (queryFuel 3)
          (Phase.generateSql, initSt "Hello".toList adminCtx) =
        .ok (Phase.finished, st) ∧
      queryRun (oracleConst "SELECT 1".toList) 3 false
          "Hello".toList adminCtx = buildResponse st ∧
      st.genCalls = 0 ∧ st.execCalls = 0 ∧
      (buildResponse st).success = true ∧
      (buildResponse st).sql_query = none ∧
      (buildResponse st).retry_count = 0 ∧
      (buildResponse st).answer =
        (if (is_data_query "Hello".toList).1 then
          (validate_query_intent "Hello".toList adminCtx).2
         else (is_data_query "Hello".toList).2) :=
  c10_blocked (oracleConst "SELECT 1".toList) 3 false "Hello".toList adminCtx
    (Or.inl (by decide))
